import Mathlib

/-!
Verification of the Cadre quote extractor (`streamlit_app.py`).

This development shallowly embeds the text-processing core of
`streamlit_app.py` into Lean:

* a small backtracking regular-expression engine (`RE`, `matchK`) whose
  alternative ordering reproduces Python `re` semantics (leftmost match,
  greedy/lazy quantifiers, ordered depth-first backtracking) for the
  fragment of syntax the program uses: literals, character classes with
  `{lo,hi}` bounds, capture groups, concatenation, and `(?:...)?`;
* transliterations of every pattern in the source file
  (`lineItemRE`, `quoteRE`, `custRE`, `contactRE`, `companyRE`, `addrRE`,
  `cityRE`, `validRE`);
* the extraction pipeline: `extract_full_text`, `extract_header_info`,
  `extract_line_items`, `build_rows_for_pdf`, and the per-document batch
  loop (`processBatch`).

Texts are `List Char`.  Python character classes `\d`, `\s`, `[A-Z...]`
are modelled over their ASCII ranges (the program's target documents are
ASCII).  Python `float` values produced by record assembly are modelled as
exact rationals (`ℚ`); every numeric string the program parses denotes a
decimal, which `ℚ` represents exactly.
-/

namespace Cadre

/-! ## Character classes (ASCII ranges of the regex classes used) -/

/-- Class `\d` : an ASCII decimal digit. -/
def isDig (c : Char) : Bool := 48 ≤ c.toNat && c.toNat ≤ 57

/-- Class `\s` and Python `str.strip`/`str.split` whitespace:
space, tab, newline, carriage return, vertical tab, form feed. -/
def isPySpace (c : Char) : Bool :=
  c.toNat == 32 || c.toNat == 9 || c.toNat == 10 || c.toNat == 13 ||
  c.toNat == 11 || c.toNat == 12

/-- Class `[A-Z]`. -/
def isUp (c : Char) : Bool := 65 ≤ c.toNat && c.toNat ≤ 90

/-- Class `[a-z]`. -/
def isLow (c : Char) : Bool := 97 ≤ c.toNat && c.toNat ≤ 122

/-- Class `[A-Z0-9.\-]` : the item-identifier class of the line-item pattern. -/
def idCls (c : Char) : Bool := isUp c || isDig c || c.toNat == 46 || c.toNat == 45

/-- Class `[\d,]` : digits or comma (thousands-separated numbers). -/
def digitComma (c : Char) : Bool := isDig c || c.toNat == 44

/-- Class `[A-Za-z .'-]` : the contact-name class. -/
def nameCls (c : Char) : Bool :=
  isUp c || isLow c || c.toNat == 32 || c.toNat == 46 || c.toNat == 39 ||
  c.toNat == 45

/-- Class `.` (no DOTALL): any character except a newline. -/
def dotCls (c : Char) : Bool := !(c.toNat == 10)

/-- Class `[A-Za-z0-9 .]` : first street-address run. -/
def addr1Cls (c : Char) : Bool :=
  isUp c || isLow c || isDig c || c.toNat == 32 || c.toNat == 46

/-- Class `[A-Za-z0-9 ]` : second (discarded) street-address run. -/
def addr2Cls (c : Char) : Bool := isUp c || isLow c || isDig c || c.toNat == 32

/-- Class `[A-Za-z .]` : the city-name class. -/
def cityCls (c : Char) : Bool :=
  isUp c || isLow c || c.toNat == 32 || c.toNat == 46

/-! ## A backtracking regular-expression engine

`matchK re s k` enumerates, in Python `re` preference order, the ways `re`
can match a prefix of `s`, passing the collected capture groups and the
remaining suffix to the continuation `k`.  The head of the resulting list
is the match Python's engine commits to. -/

/-- Capture groups: association list from group index to captured text. -/
abbrev Caps := List (Nat × List Char)

/-- All matcher outcomes, in preference order. -/
abbrev MRes := List (Caps × List Char)

/-- The regex fragment used by `streamlit_app.py`:
literal strings, character classes with repetition bounds
(`lo` minimum, `hi` optional maximum, greedy or lazy),
capture groups, concatenation, and greedy `(?:...)?`. -/
inductive RE where
  | lit (cs : List Char)
  | cls (p : Char → Bool) (lo : Nat) (hi : Option Nat) (greedy : Bool)
  | grp (idx : Nat) (r : RE)
  | seq (a b : RE)
  | opt (r : RE)

/-- Candidate repetition counts for a character class that can take at most
`maxT` characters, in preference order: greedy counts down from `maxT` to
`lo`, lazy counts up from `lo` to `maxT`. -/
def clsLens (lo maxT : Nat) (greedy : Bool) : List Nat :=
  if greedy then (List.range (maxT + 1 - lo)).map (fun i => maxT - i)
  else (List.range (maxT + 1 - lo)).map (fun i => lo + i)

/-- The matcher.  A class repetition of `n` characters always consumes the
first `n` characters of the maximal run of class characters, so its
alternatives are exactly the prefixes of that run allowed by the bounds. -/
def matchK : RE → List Char → (Caps → List Char → MRes) → MRes
  | .lit cs, s, k => if cs.isPrefixOf s then k [] (s.drop cs.length) else []
  | .cls p lo hi greedy, s, k =>
      (clsLens lo (min (s.takeWhile p).length
        (hi.getD (s.takeWhile p).length)) greedy).flatMap fun n =>
          k [] (s.drop n)
  | .grp i r, s, k =>
      matchK r s fun caps rest =>
        k ((i, s.take (s.length - rest.length)) :: caps) rest
  | .seq a b, s, k =>
      matchK a s fun caps1 rest1 =>
        matchK b rest1 fun caps2 rest2 => k (caps1 ++ caps2) rest2
  | .opt r, s, k => matchK r s k ++ k [] s

/-- The match Python's engine returns at this position, if any:
the collected captures and the unconsumed suffix. -/
def matchHead (re : RE) (s : List Char) : Option (Caps × List Char) :=
  (matchK re s fun caps rest => [(caps, rest)]).head?

/-- A match found in a larger text: span `[start, stop)` and captures. -/
structure MatchRes where
  start : Nat
  stop : Nat
  caps : Caps
deriving DecidableEq, Repr

/-- Text of capture group `i` of a match (`""` if the group is absent). -/
def capStr (m : MatchRes) (i : Nat) : List Char :=
  (List.lookup i m.caps).getD []

/-- Python `re.search`: try the pattern at every position, left to right
(including the position at the end of the text), and return the first
match. -/
def searchAux (re : RE) : List Char → Nat → Option MatchRes
  | [], pos =>
      match matchHead re [] with
      | some (caps, _) => some ⟨pos, pos, caps⟩
      | none => none
  | c :: rest, pos =>
      match matchHead re (c :: rest) with
      | some (caps, rem) =>
          some ⟨pos, pos + ((c :: rest).length - rem.length), caps⟩
      | none => searchAux re rest (pos + 1)

/-- Python `re.search` on a whole text. -/
def reSearch (re : RE) (s : List Char) : Option MatchRes := searchAux re s 0

/-- Python `re.finditer` for a `(?m)^`-anchored pattern: scan left to right,
attempt the pattern only at line starts, and resume after each
(non-empty) match.  `atStart` records whether the current position is at
the start of the text or right after a newline.  The fuel argument is
always run with `fuel ≥ length of the text`, so it never runs out. -/
def findMAux (re : RE) : Nat → List Char → Nat → Bool → List MatchRes
  | 0, _, _, _ => []
  | _ + 1, [], _, _ => []
  | fuel + 1, c :: rest, pos, atStart =>
      if atStart then
        match matchHead re (c :: rest) with
        | some (caps, rem) =>
            let n := (c :: rest).length - rem.length
            if n = 0 then findMAux re fuel rest (pos + 1) (c == '\n')
            else
              ⟨pos, pos + n, caps⟩ ::
                findMAux re fuel rem (pos + n)
                  (((c :: rest).take n).getLast? == some '\n')
        | none => findMAux re fuel rest (pos + 1) (c == '\n')
      else findMAux re fuel rest (pos + 1) (c == '\n')

/-! ## Python string helpers -/

/-- Python `str.find(needle, pos)` on the suffix already dropped, tracking the
absolute position; `none` models Python's `-1`. -/
def findSubAux (needle : List Char) : List Char → Nat → Option Nat
  | [], pos => if needle.isEmpty then some pos else none
  | c :: rest, pos =>
      if needle.isPrefixOf (c :: rest) then some pos
      else findSubAux needle rest (pos + 1)

/-- Python `hay.find(needle, start)`; `none` models `-1`. -/
def strFind (hay needle : List Char) (start : Nat) : Option Nat :=
  findSubAux needle (hay.drop start) start

/-- Python `needle in hay`. -/
def containsSub (hay needle : List Char) : Bool := (strFind hay needle 0).isSome

/-- The slice `t[a:b]` (empty when `b ≤ a`, clipped at the end of `t`). -/
def sliceL (t : List Char) (a b : Nat) : List Char := (t.drop a).take (b - a)

/-- Python `str.strip()`. -/
def pyStrip (s : List Char) : List Char :=
  ((s.dropWhile isPySpace).reverse.dropWhile isPySpace).reverse

/-- Python `str.split()` with fuel (each step consumes at least one character). -/
def pyWordsAux : Nat → List Char → List (List Char)
  | 0, _ => []
  | _ + 1, [] => []
  | fuel + 1, c :: rest =>
      if isPySpace c then pyWordsAux fuel rest
      else
        (c :: rest).takeWhile (fun x => !isPySpace x) ::
          pyWordsAux fuel (rest.dropWhile (fun x => !isPySpace x))

/-- Python `str.split()`: the whitespace-separated words of `s`. -/
def pyWords (s : List Char) : List (List Char) := pyWordsAux s.length s

/-- Python `" ".join(words)`. -/
def joinWords : List (List Char) → List Char
  | [] => []
  | [w] => w
  | w :: ws => w ++ ' ' :: joinWords ws

/-- Python `" ".join(s.split())`: collapse internal whitespace runs. -/
def collapseWs (s : List Char) : List Char := joinWords (pyWords s)

/-! ## The source patterns, transliterated -/

/-- Right-nested concatenation of a list of pattern elements. -/
def seqs : List RE → RE
  | [] => .lit []
  | [r] => r
  | r :: rs => .seq r (seqs rs)

/-- Pattern `\s+`. -/
def wsp1 : RE := .cls isPySpace 1 none true

/-- Pattern `\s*`. -/
def wsp0 : RE := .cls isPySpace 0 none true

/-- Pattern `(\d{1,2}/\d{1,2}/\d{4})` with capture index `i`. -/
def dateGrp (i : Nat) : RE :=
  .grp i (seqs [.cls isDig 1 (some 2) true, .lit ['/'],
    .cls isDig 1 (some 2) true, .lit ['/'], .cls isDig 4 (some 4) true])

/-- Pattern `Quote\s+(\d+)\s+Date\s+(\d{1,2}/\d{1,2}/\d{4})`. -/
def quoteRE : RE :=
  seqs [.lit "Quote".toList, wsp1, .grp 1 (.cls isDig 1 none true), wsp1,
    .lit "Date".toList, wsp1, dateGrp 2]

/-- Pattern `Customer\s+(\d+)`. -/
def custRE : RE :=
  seqs [.lit "Customer".toList, wsp1, .grp 1 (.cls isDig 1 none true)]

/-- Pattern `Contact\s+([A-Za-z .'-]+)`. -/
def contactRE : RE :=
  seqs [.lit "Contact".toList, wsp1, .grp 1 (.cls nameCls 1 none true)]

/-- Pattern `Quoted For:\s*(.+?)\s+Ship To:`. -/
def companyRE : RE :=
  seqs [.lit "Quoted For:".toList, wsp0, .grp 1 (.cls dotCls 1 none false),
    wsp1, .lit "Ship To:".toList]

/-- Pattern `(\d{3,6}\s+[A-Za-z0-9 .]+?)\s+\d{3,6}\s+[A-Za-z0-9 ]+`. -/
def addrRE : RE :=
  seqs [.grp 1 (seqs [.cls isDig 3 (some 6) true, wsp1,
      .cls addr1Cls 1 none false]),
    wsp1, .cls isDig 3 (some 6) true, wsp1, .cls addr2Cls 1 none true]

/-- `([A-Za-z .]+),\s*([A-Z]{2})\s+(\d{5})(?:-\d{4})?`. -/
def cityRE : RE :=
  seqs [.grp 1 (.cls cityCls 1 none true), .lit [','], wsp0,
    .grp 2 (.cls isUp 2 (some 2) true), wsp1,
    .grp 3 (.cls isDig 5 (some 5) true),
    .opt (.seq (.lit ['-']) (.cls isDig 4 (some 4) true))]

/-- `Quote Good Through\s+(\d{1,2}/\d{1,2}/\d{4})`. -/
def validRE : RE :=
  seqs [.lit "Quote Good Through".toList, wsp1, dateGrp 1]

/-- `(?m)^(\d+)\s+([A-Z0-9.\-]+)\s+(\d+)\s+EAC\s+([\d,]+\.\d+)\s*EAC\s+([\d,]+\.\d{2})`
(the `^` anchor is handled by the multiline scanner `findMAux`). -/
def lineItemRE : RE :=
  seqs [.grp 1 (.cls isDig 1 none true), wsp1,
    .grp 2 (.cls idCls 1 none true), wsp1,
    .grp 3 (.cls isDig 1 none true), wsp1,
    .lit "EAC".toList, wsp1,
    .grp 4 (seqs [.cls digitComma 1 none true, .lit ['.'],
      .cls isDig 1 none true]),
    wsp0, .lit "EAC".toList, wsp1,
    .grp 5 (seqs [.cls digitComma 1 none true, .lit ['.'],
      .cls isDig 2 (some 2) true])]

/-! ## Stage 1: text extraction (`extract_full_text`)

The pdfplumber boundary is abstracted: a document is its list of pages,
each page being `some text` or `none` when `page.extract_text()` yields
nothing (the code substitutes `""`). -/

/-- `extract_full_text`: `full_text += (page.extract_text() or "") + "\n"`
over the pages in order. -/
def extract_full_text (pages : List (Option (List Char))) : List Char :=
  pages.foldl (fun acc p => acc ++ p.getD [] ++ ['\n']) []

/-- The spec's reading of the §4.1 contract: page texts
"concatenated with a newline separator", i.e. interleaved single
newlines with no trailing terminator.  Written from the spec's words,
for comparison with `extract_full_text`. -/
def specNewlineSeparatedJoin (texts : List (List Char)) : List Char :=
  List.intercalate ['\n'] texts

/-! ## Stage 2: header extraction (`extract_header_info`) -/

/-- The `Dict[str, Optional[str]]` of header fields; a missing key and a
key stored with `None` are both `none` (the consumer only uses
`header.get(...)`). -/
structure Header where
  quoteNumber : Option (List Char) := none
  quoteDate : Option (List Char) := none
  customerNumber : Option (List Char) := none
  firstName : Option (List Char) := none
  lastName : Option (List Char) := none
  company : Option (List Char) := none
  address : Option (List Char) := none
  city : Option (List Char) := none
  state : Option (List Char) := none
  zipCode : Option (List Char) := none
  country : Option (List Char) := none
  quoteValidDate : Option (List Char) := none
deriving DecidableEq, Repr

/-- The scoped address block: `full_text[start:end]` between the first
`"Quoted For:"` and the first `"Quote Good Through"`, empty when either
marker is missing. -/
def headerBlock (t : List Char) : List Char :=
  match strFind t "Quoted For:".toList 0, strFind t "Quote Good Through".toList 0 with
  | some i, some j => sliceL t i j
  | _, _ => []

/-- The four field extractions performed inside the address block:
company, street address, city/state/zip, country. -/
def addrFields (h : Header) (block : List Char) : Header :=
  let hC := match reSearch companyRE block with
    | some m => { h with company := some (pyStrip (capStr m 1)) }
    | none => h
  let hA := match reSearch addrRE block with
    | some m => { hC with address := some (pyStrip (capStr m 1)) }
    | none => hC
  let hCity := match reSearch cityRE block with
    | some m =>
        { hA with
          city := some (pyStrip (capStr m 1)),
          state := some (capStr m 2),
          zipCode := some (capStr m 3) }
    | none => hA
  if containsSub block "United States of America".toList then
    { hCity with country := some "USA".toList }
  else hCity

/-- `extract_header_info`, stage 1: `Quote ... Date ...` (both fields set
together or neither). -/
def headerQuote (t : List Char) : Header :=
  match reSearch quoteRE t with
  | some m =>
      { quoteNumber := some (capStr m 1),
        quoteDate := some (capStr m 2) }
  | none => {}

/-- Stage 2: `Customer ...`. -/
def headerCust (t : List Char) : Header :=
  match reSearch custRE t with
  | some m => { headerQuote t with customerNumber := some (capStr m 1) }
  | none => headerQuote t

/-- Stage 3: `name.split()` of the stripped contact-name capture. -/
def contactParts (t : List Char) : List (List Char) :=
  match reSearch contactRE t with
  | some m => pyWords (pyStrip (capStr m 1))
  | none => []

/-- Stage 3: `FirstName`/`LastName` from the contact parts (both always
assigned, possibly `None`). -/
def headerContact (t : List Char) : Header :=
  { headerCust t with
    firstName := (contactParts t).head?,
    lastName :=
      if 2 ≤ (contactParts t).length then some (joinWords (contactParts t).tail)
      else none }

/-- Stage 4: the address block, attempted only when both markers occur. -/
def headerAddr (t : List Char) : Header :=
  match strFind t "Quoted For:".toList 0,
      strFind t "Quote Good Through".toList 0 with
  | some _, some _ => addrFields (headerContact t) (headerBlock t)
  | _, _ => headerContact t

/-- `extract_header_info`: each field recovered by one targeted search,
in source order (stages 1-4 then `Quote Good Through ...`). -/
def extract_header_info (t : List Char) : Header :=
  match reSearch validRE t with
  | some m => { headerAddr t with quoteValidDate := some (capStr m 1) }
  | none => headerAddr t

/-! ## Stage 3: line-item extraction (`extract_line_items`) -/

/-- One extracted line item (the dict built in `extract_line_items`). -/
structure Item where
  line_no : List Char
  item_id : List Char
  qty : List Char
  unit_price : List Char
  total : List Char
  description : List Char
deriving DecidableEq, Repr

/-- All matches of the line-item pattern, in order of appearance. -/
def lineItemMatches (t : List Char) : List MatchRes :=
  findMAux lineItemRE t.length t 0 true

/-- Build the item list from the match list: each description runs from
the end of its own match to the start of the next match, and for the
last match to the first `"Product"` after it (or the end of the text). -/
def itemsFrom (t : List Char) : List MatchRes → List Item
  | [] => []
  | m :: rest =>
      let endDesc :=
        match rest with
        | m2 :: _ => m2.start
        | [] =>
            match strFind t "Product".toList m.stop with
            | some j => j
            | none => t.length
      { line_no := capStr m 1, item_id := capStr m 2, qty := capStr m 3,
        unit_price := capStr m 4, total := capStr m 5,
        description := collapseWs (pyStrip (sliceL t m.stop endDesc)) } ::
        itemsFrom t rest

/-- `extract_line_items`. -/
def extract_line_items (t : List Char) : List Item :=
  itemsFrom t (lineItemMatches t)

/-! ## Stage 4: record assembly (`build_rows_for_pdf`) -/

/-- `s.replace(",", "")`. -/
def stripCommas (s : List Char) : List Char := s.filter (fun c => c ≠ ',')

/-- Numeric value of a digit string. -/
def digitsVal (s : List Char) : Nat :=
  s.foldl (fun a c => 10 * a + (c.toNat - 48)) 0

/-- `float(s)` on the decimal literals this program produces
(digits with at most one decimal point), as an exact rational;
`none` models the `except` branch.  Signs/exponents/whitespace never
occur in the extracted strings and are not modelled. -/
def pyFloat (s : List Char) : Option ℚ :=
  let intPart := s.takeWhile (fun c => c ≠ '.')
  match s.dropWhile (fun c => c ≠ '.') with
  | [] =>
      if intPart ≠ [] ∧ intPart.all isDig then some (digitsVal intPart) else none
  | _ :: frac =>
      if (intPart ++ frac).all isDig ∧ frac.all (fun c => c ≠ '.') ∧
          intPart ++ frac ≠ [] then
        some ((digitsVal intPart : ℚ) + (digitsVal frac : ℚ) / (10 : ℚ) ^ frac.length)
      else none

/-- `x or None` for a Python `str`: the empty string becomes `None`. -/
def orNone (s : List Char) : Option (List Char) := if s = [] then none else some s

/-- One output row (the dict following `TARGET_COLUMNS`). -/
structure Row where
  referralManager : Option (List Char)
  referralEmail : Option (List Char)
  brand : Option (List Char)
  quoteNumber : Option (List Char)
  quoteDate : Option (List Char)
  company : Option (List Char)
  firstName : Option (List Char)
  lastName : Option (List Char)
  contactEmail : Option (List Char)
  contactPhone : Option (List Char)
  address : Option (List Char)
  county : Option (List Char)
  city : Option (List Char)
  state : Option (List Char)
  zipCode : Option (List Char)
  country : Option (List Char)
  item_id : List Char
  item_desc : List Char
  unitPrice : Option ℚ
  totalSales : Option ℚ
  quoteValidDate : Option (List Char)
  customerNumber : Option (List Char)
  manufacturer_Name : Option (List Char)
  pdf : List Char
  demoQuote : Option (List Char)
deriving DecidableEq, Repr

/-- `build_rows_for_pdf`: parse one document and emit one row per line
item, joining the header fields onto each item. -/
def build_rows_for_pdf (pages : List (Option (List Char)))
    (filename : List Char) (referral_manager : Option (List Char))
    (referral_email brand : List Char) : List Row :=
  let full_text := extract_full_text pages
  let header := extract_header_info full_text
  let items := extract_line_items full_text
  items.map fun it =>
    { referralManager := referral_manager.bind orNone,
      referralEmail := orNone referral_email,
      brand := orNone brand,
      quoteNumber := header.quoteNumber,
      quoteDate := header.quoteDate,
      company := header.company,
      firstName := header.firstName,
      lastName := header.lastName,
      contactEmail := none,
      contactPhone := none,
      address := header.address,
      county := none,
      city := header.city,
      state := header.state,
      zipCode := header.zipCode,
      country := header.country,
      item_id := it.item_id,
      item_desc := it.description,
      unitPrice := pyFloat (stripCommas it.unit_price),
      totalSales := pyFloat (stripCommas it.total),
      quoteValidDate := header.quoteValidDate,
      customerNumber := header.customerNumber,
      manufacturer_Name := none,
      pdf := filename,
      demoQuote := none }

/-! ## The batch loop

The module-level loop reads each uploaded file, calls
`build_rows_for_pdf` inside `try`, extends `all_rows` on success and
records a warning naming the file on exception.  The per-document
outcome (the rows, or the exception message) is the input here, since
Lean functions cannot raise. -/

/-- The warning text `f"Error processing {f.name}: {e}"`. -/
def warningFor (name msg : List Char) : List Char :=
  "Error processing ".toList ++ name ++ ": ".toList ++ msg

/-- The batch loop over `(filename, outcome)` pairs, in upload order:
accumulated rows and accumulated warnings. -/
def processBatch :
    List (List Char × Except (List Char) (List Row)) →
      List Row × List (List Char)
  | [] => ([], [])
  | (name, res) :: rest =>
      let out := processBatch rest
      match res with
      | .ok rows => (rows ++ out.1, out.2)
      | .error e => (out.1, warningFor name e :: out.2)

/-! ## Infrastructure: runs of class characters -/

theorem takeWhile_run {p : Char → Bool} {a b : List Char}
    (ha : ∀ c ∈ a, p c = true)
    (hb : ∀ c, b.head? = some c → p c = false) :
    (a ++ b).takeWhile p = a := by
  induction a with
  | nil =>
      cases b with
      | nil => rfl
      | cons c rest => simp [List.takeWhile_cons, hb c rfl]
  | cons c a ih =>
      simp only [List.cons_append, List.takeWhile_cons,
        ha c (List.mem_cons_self c a)]
      exact congrArg (c :: ·) (ih fun x hx => ha x (List.mem_cons_of_mem _ hx))

theorem takeWhile_all_append {p : Char → Bool} {a : List Char} (b : List Char)
    (ha : ∀ c ∈ a, p c = true) :
    (a ++ b).takeWhile p = a ++ b.takeWhile p := by
  induction a with
  | nil => rfl
  | cons c a ih =>
      simp only [List.cons_append, List.takeWhile_cons,
        ha c (List.mem_cons_self c a)]
      exact congrArg (c :: ·) (ih fun x hx => ha x (List.mem_cons_of_mem _ hx))

theorem takeWhile_len_lt {p : Char → Bool} {l : List Char} (m : List Char)
    (h : ∃ c ∈ l, p c = false) : ((l ++ m).takeWhile p).length < l.length := by
  induction l with
  | nil => obtain ⟨c, hc, _⟩ := h; exact absurd hc (List.not_mem_nil c)
  | cons c l ih =>
      by_cases hpc : p c = true
      · simp only [List.cons_append, List.takeWhile_cons, hpc]
        have : ∃ x ∈ l, p x = false := by
          obtain ⟨x, hx, hpx⟩ := h
          rcases List.mem_cons.mp hx with rfl | hx'
          · exact absurd hpc (by simp [hpx])
          · exact ⟨x, hx', hpx⟩
        simpa using ih this
      · simp only [List.cons_append, List.takeWhile_cons, if_neg hpc]
        simp

theorem dropWhile_eq_self {p : Char → Bool} {s : List Char}
    (h : ∀ c, s.head? = some c → p c = false) : s.dropWhile p = s := by
  cases s with
  | nil => rfl
  | cons c rest => simp [List.dropWhile_cons, h c rfl]

/-! ## Infrastructure: the alternative lists of a class repetition -/

theorem clsLens_lazy_cons {lo m : Nat} (h : lo ≤ m) :
    clsLens lo m false = lo :: clsLens (lo + 1) m false := by
  unfold clsLens
  simp only [if_neg (Bool.false_ne_true), Bool.false_eq_true]
  rw [show m + 1 - lo = (m - lo) + 1 by omega, List.range_succ_eq_map,
    show m + 1 - (lo + 1) = m - lo by omega]
  simp [List.map_map, Function.comp, Nat.add_comm, Nat.add_assoc,
    Nat.add_left_comm]

theorem clsLens_greedy_head {lo m : Nat} (h : lo ≤ m) :
    ∃ tl, clsLens lo m true = m :: tl := by
  unfold clsLens
  rw [if_pos rfl, show m + 1 - lo = (m - lo) + 1 by omega,
    List.range_succ_eq_map]
  refine ⟨List.map ((fun i => m - i) ∘ Nat.succ) (List.range (m - lo)), ?_⟩
  rw [List.map_cons, List.map_map]
  norm_num

theorem mem_clsLens {lo m : Nat} {g : Bool} {j : Nat} (h : j ∈ clsLens lo m g) :
    lo ≤ j ∧ j ≤ m := by
  unfold clsLens at h
  split at h <;>
    (simp only [List.mem_map, List.mem_range] at h
     obtain ⟨i, hi, rfl⟩ := h
     omega)

theorem lazy_flatMap_head {f : Nat → MRes} {v : Caps × List Char} :
    ∀ (d lo tgt m : Nat), tgt - lo = d → lo ≤ tgt → tgt ≤ m →
      (∀ j, lo ≤ j → j < tgt → f j = []) → (f tgt).head? = some v →
      ((clsLens lo m false).flatMap f).head? = some v := by
  intro d
  induction d with
  | zero =>
      intro lo tgt m hd hlt htm hfail hv
      have : lo = tgt := by omega
      subst this
      rw [clsLens_lazy_cons (Nat.le_trans (Nat.le_refl lo) htm),
        List.flatMap_cons, List.head?_append, hv]
      rfl
  | succ d ih =>
      intro lo tgt m hd hlt htm hfail hv
      have hlo : lo < tgt := by omega
      rw [clsLens_lazy_cons (by omega), List.flatMap_cons,
        hfail lo (Nat.le_refl lo) hlo, List.nil_append]
      exact ih (lo + 1) tgt m (by omega) (by omega) htm
        (fun j h1 h2 => hfail j (by omega) h2) hv

theorem greedy_flatMap_head {f : Nat → MRes} {v : Caps × List Char}
    {lo m : Nat} (h : lo ≤ m) (hv : (f m).head? = some v) :
    ((clsLens lo m true).flatMap f).head? = some v := by
  obtain ⟨tl, htl⟩ := clsLens_greedy_head h
  rw [htl, List.flatMap_cons, List.head?_append, hv]
  rfl

/-! ## Infrastructure: evaluating the matcher -/

theorem matchK_lit_eq (cs s : List Char) (k : Caps → List Char → MRes) :
    matchK (.lit cs) s k =
      if cs.isPrefixOf s then k [] (s.drop cs.length) else [] := rfl

theorem matchK_cls_eq (p : Char → Bool) (lo : Nat) (hi : Option Nat)
    (g : Bool) (s : List Char) (k : Caps → List Char → MRes) :
    matchK (.cls p lo hi g) s k =
      (clsLens lo (min (s.takeWhile p).length
        (hi.getD (s.takeWhile p).length)) g).flatMap fun n =>
          k [] (s.drop n) := rfl

theorem matchK_grp_eq (i : Nat) (r : RE) (s : List Char)
    (k : Caps → List Char → MRes) :
    matchK (.grp i r) s k =
      matchK r s fun caps rest =>
        k ((i, s.take (s.length - rest.length)) :: caps) rest := rfl

theorem matchK_seq_eq (a b : RE) (s : List Char)
    (k : Caps → List Char → MRes) :
    matchK (.seq a b) s k =
      matchK a s fun caps1 rest1 =>
        matchK b rest1 fun caps2 rest2 => k (caps1 ++ caps2) rest2 := rfl

theorem isPrefixOf_append_self : ∀ cs r : List Char,
    cs.isPrefixOf (cs ++ r) = true
  | [], _ => by simp only [List.nil_append, List.isPrefixOf]
  | c :: cs, r => by
      simp only [List.cons_append, List.isPrefixOf, BEq.refl, Bool.true_and]
      exact isPrefixOf_append_self cs r

theorem matchK_lit_run {cs r s : List Char} {k : Caps → List Char → MRes}
    (hs : s = cs ++ r) : matchK (.lit cs) s k = k [] r := by
  subst hs
  rw [matchK_lit_eq, if_pos (isPrefixOf_append_self cs r), List.drop_left]

theorem matchK_lit_nil {cs s : List Char} {k : Caps → List Char → MRes}
    (h : cs.isPrefixOf s = false) : matchK (.lit cs) s k = [] := by
  rw [matchK_lit_eq, h]
  rfl

theorem matchK_lit_head {cs r : List Char} {k : Caps → List Char → MRes}
    {v : Caps × List Char} (hk : (k [] r).head? = some v) :
    (matchK (.lit cs) (cs ++ r) k).head? = some v := by
  rw [matchK_lit_run rfl]
  exact hk

theorem matchK_cls_nil {p : Char → Bool} {lo : Nat} {hi : Option Nat}
    {g : Bool} {s : List Char} {k : Caps → List Char → MRes}
    (hfail : ∀ j, lo ≤ j →
      j ≤ min (s.takeWhile p).length (hi.getD (s.takeWhile p).length) →
      k [] (s.drop j) = []) :
    matchK (.cls p lo hi g) s k = [] := by
  rw [matchK_cls_eq]
  exact List.flatMap_eq_nil_iff.mpr fun j hj =>
    hfail j (mem_clsLens hj).1 (mem_clsLens hj).2

theorem matchK_cls_nil_head {p : Char → Bool} {lo : Nat} {hi : Option Nat}
    {g : Bool} {s : List Char} {k : Caps → List Char → MRes} (hlo : 1 ≤ lo)
    (hhd : ∀ c, s.head? = some c → p c = false) :
    matchK (.cls p lo hi g) s k = [] := by
  have hrun : s.takeWhile p = [] := by
    cases s with
    | nil => rfl
    | cons c rest => simp [List.takeWhile_cons, hhd c rfl]
  refine matchK_cls_nil fun j h1 h2 => absurd (Nat.le_trans h1 h2) ?_
  rw [hrun]
  simp only [List.length_nil, Nat.zero_min]
  omega

theorem matchK_cls_greedy_head {p : Char → Bool} {lo m : Nat}
    {hi : Option Nat} {s : List Char} {k : Caps → List Char → MRes}
    {v : Caps × List Char}
    (hm : min (s.takeWhile p).length (hi.getD (s.takeWhile p).length) = m)
    (hlo : lo ≤ m) (hk : (k [] (s.drop m)).head? = some v) :
    (matchK (.cls p lo hi true) s k).head? = some v := by
  rw [matchK_cls_eq, hm]
  exact greedy_flatMap_head hlo hk

theorem matchK_cls_lazy_head {p : Char → Bool} {lo tgt : Nat} {s : List Char}
    {k : Caps → List Char → MRes} {v : Caps × List Char}
    (hlo : lo ≤ tgt) (htm : tgt ≤ (s.takeWhile p).length)
    (hfail : ∀ j, lo ≤ j → j < tgt → k [] (s.drop j) = [])
    (hk : (k [] (s.drop tgt)).head? = some v) :
    (matchK (.cls p lo none false) s k).head? = some v := by
  rw [matchK_cls_eq]
  simp only [Option.getD, Nat.min_self]
  exact lazy_flatMap_head (tgt - lo) lo tgt _ rfl hlo htm hfail hk

/-- Greedy class consuming a full run `a` (the next character is outside
the class) when the upper bound does not cut the run short. -/
theorem matchK_cls_full_head {p : Char → Bool} {lo : Nat} {hi : Option Nat}
    {a s : List Char} {k : Caps → List Char → MRes} {v : Caps × List Char}
    (ha : ∀ c ∈ a, p c = true)
    (hs : ∀ c, s.head? = some c → p c = false)
    (hlo : lo ≤ a.length) (hhi : a.length ≤ hi.getD a.length)
    (hk : (k [] s).head? = some v) :
    (matchK (.cls p lo hi true) (a ++ s) k).head? = some v := by
  have hrun : (a ++ s).takeWhile p = a := takeWhile_run ha hs
  refine matchK_cls_greedy_head (m := a.length) ?_ hlo ?_
  · rw [hrun]
    omega
  · rw [List.drop_left]
    exact hk

/-- Greedy class cut short at its upper bound `n` inside a longer run. -/
theorem matchK_cls_capped_head {p : Char → Bool} {lo n : Nat} {s : List Char}
    {k : Caps → List Char → MRes} {v : Caps × List Char}
    (htw : n ≤ (s.takeWhile p).length) (hlo : lo ≤ n)
    (hk : (k [] (s.drop n)).head? = some v) :
    (matchK (.cls p lo (some n) true) s k).head? = some v := by
  refine matchK_cls_greedy_head (m := n) ?_ hlo hk
  simp only [Option.getD]
  omega

theorem matchK_wsp1_single {s : List Char} {k : Caps → List Char → MRes}
    {v : Caps × List Char}
    (hs : ∀ c, s.head? = some c → isPySpace c = false)
    (hk : (k [] s).head? = some v) :
    (matchK wsp1 (' ' :: s) k).head? = some v := by
  have : (' ' :: s) = [' '] ++ s := rfl
  rw [this]
  exact matchK_cls_full_head (by simp [isPySpace]) hs (by simp) (by simp) hk

theorem matchK_wsp0_zero {s : List Char} {k : Caps → List Char → MRes}
    {v : Caps × List Char}
    (hs : ∀ c, s.head? = some c → isPySpace c = false)
    (hk : (k [] s).head? = some v) :
    (matchK wsp0 s k).head? = some v := by
  have : s = [] ++ s := rfl
  rw [this]
  exact matchK_cls_full_head (by simp) hs (by simp) (by simp) hk

/-- Splitting off the consumed prefix of a match. -/
theorem consumed_eq {s a rest : List Char} (h : s = a ++ rest) :
    s.take (s.length - rest.length) = a := by
  subst h
  rw [List.length_append, show a.length + rest.length - rest.length = a.length
    by omega, List.take_left]

/-! ## Infrastructure: scanning -/

theorem findMAux_nil_of_nomatch {re : RE} :
    ∀ (fuel : Nat) (s : List Char) (pos : Nat) (flag : Bool),
      (∀ i, matchHead re (s.drop i) = none) →
      findMAux re fuel s pos flag = [] := by
  intro fuel
  induction fuel with
  | zero => intro s pos flag _; rfl
  | succ fuel ih =>
      intro s pos flag h
      cases s with
      | nil => rfl
      | cons c rest =>
          have h0 : matchHead re (c :: rest) = none := h 0
          have hsh : ∀ i, matchHead re (rest.drop i) = none := fun i => h (i + 1)
          cases flag with
          | false => exact ih rest (pos + 1) (c == '\n') hsh
          | true =>
              unfold findMAux
              rw [h0]
              exact ih rest (pos + 1) (c == '\n') hsh

theorem searchAux_skip {re : RE} {x : Char} {xs : List Char} {pos : Nat}
    (h : matchHead re (x :: xs) = none) :
    searchAux re (x :: xs) pos = searchAux re xs (pos + 1) := by
  have heq : searchAux re (x :: xs) pos =
      match matchHead re (x :: xs) with
      | some (caps, rem) =>
          some ⟨pos, pos + ((x :: xs).length - rem.length), caps⟩
      | none => searchAux re xs (pos + 1) := rfl
  rw [heq, h]

theorem searchAux_prefix_fail {re : RE} :
    ∀ (c s : List Char) (pos : Nat),
      (∀ i, i < c.length → matchHead re (c.drop i ++ s) = none) →
      searchAux re (c ++ s) pos = searchAux re s (pos + c.length) := by
  intro c
  induction c with
  | nil => intro s pos _; simp
  | cons x c ih =>
      intro s pos h
      have h0 : matchHead re (x :: (c ++ s)) = none := by
        have := h 0 (by simp)
        simpa using this
      rw [List.cons_append, searchAux_skip h0,
        ih s (pos + 1) (fun i hi => by simpa using h (i + 1) (by simpa using hi))]
      congr 1
      simp only [List.length_cons]
      omega

theorem findSubAux_none {nd : List Char} {d : Char} :
    ∀ (l : List Char) (pos : Nat), (∀ c ∈ l, (c == d) = false) →
      findSubAux (d :: nd) l pos = none := by
  intro l
  induction l with
  | nil => intro pos _; rfl
  | cons c rest ih =>
      intro pos h
      unfold findSubAux
      have : (d :: nd).isPrefixOf (c :: rest) = false := by
        simp only [List.isPrefixOf]
        have := h c (List.mem_cons_self c rest)
        rw [BEq.comm] at this
        simp [this]
      rw [this]
      simp only [Bool.false_eq_true, if_false]
      exact ih (pos + 1) fun x hx => h x (List.mem_cons_of_mem _ hx)

/-! ## Infrastructure: Python string helpers -/

theorem pyStrip_eq_self {s : List Char}
    (h1 : ∀ c, s.head? = some c → isPySpace c = false)
    (h2 : ∀ c, s.getLast? = some c → isPySpace c = false) :
    pyStrip s = s := by
  unfold pyStrip
  rw [dropWhile_eq_self h1, dropWhile_eq_self
    (fun c hc => h2 c (by rwa [← List.head?_reverse])), List.reverse_reverse]

theorem pyWordsAux_nil : ∀ fuel, pyWordsAux fuel [] = []
  | 0 => rfl
  | _ + 1 => rfl

theorem collapseWs_no_ws {s : List Char}
    (h : ∀ c ∈ s, isPySpace c = false) : collapseWs s = s := by
  cases s with
  | nil => rfl
  | cons c rest =>
      have hc : isPySpace c = false := h c (List.mem_cons_self c rest)
      have htw : (c :: rest).takeWhile (fun x => !isPySpace x) = c :: rest :=
        List.takeWhile_eq_self_iff.mpr fun x hx => by simp [h x hx]
      have hdw : rest.dropWhile (fun x => !isPySpace x) = [] :=
        List.dropWhile_eq_nil_iff.mpr fun x hx => by
          simp [h x (List.mem_cons_of_mem _ hx)]
      have hw : pyWords (c :: rest) = [c :: rest] := by
        unfold pyWords
        rw [show (c :: rest).length = rest.length + 1 from rfl]
        simp only [pyWordsAux]
        rw [if_neg (by simp [hc]), htw, hdw, pyWordsAux_nil]
      unfold collapseWs
      rw [hw]
      rfl

/-! ## Infrastructure: head characters and consumed prefixes -/

theorem head_cons_false {p : Char → Bool} {x : Char} {l : List Char}
    (hx : p x = false) : ∀ c, (x :: l).head? = some c → p c = false :=
  fun c hc => by
    rw [List.head?_cons] at hc
    exact Option.some.inj hc ▸ hx

theorem head_append_false {p q : Char → Bool} {a l : List Char}
    (ha : a ≠ []) (hall : ∀ c ∈ a, q c = true)
    (himp : ∀ c, q c = true → p c = false) :
    ∀ c, (a ++ l).head? = some c → p c = false := by
  intro c hc
  cases a with
  | nil => exact absurd rfl ha
  | cons x a' =>
      rw [List.cons_append, List.head?_cons] at hc
      exact himp c (hall c (Option.some.inj hc ▸ List.mem_cons_self x a'))

theorem take_consumed (a rest : List Char) :
    (a ++ rest).take ((a ++ rest).length - rest.length) = a := by
  rw [List.length_append, show a.length + rest.length - rest.length = a.length
    by omega, List.take_left]

theorem append_cons_assoc (a : List Char) (x : Char) (b c : List Char) :
    a ++ x :: (b ++ c) = (a ++ x :: b) ++ c := by simp

theorem take_consumed_mid (a : List Char) (x : Char) (b c : List Char) :
    (a ++ x :: (b ++ c)).take ((a ++ x :: (b ++ c)).length - c.length) =
      a ++ x :: b := by
  rw [append_cons_assoc, take_consumed]

theorem take_consumed_capped {n : Nat} (a : List Char) (x : Char)
    (b c : List Char) :
    (a ++ x :: (b ++ c)).take
        ((a ++ x :: (b ++ c)).length - (b.drop n ++ c).length) =
      a ++ x :: b.take n := by
  have hb : b.take n ++ (b.drop n ++ c) = b ++ c := by
    rw [← List.append_assoc, List.take_append_drop]
  rw [show a ++ x :: (b ++ c) = (a ++ x :: b.take n) ++ (b.drop n ++ c) by
    rw [← hb]; simp, take_consumed]

/-- Class disjointness: a digit is not whitespace. -/
theorem dig_not_ws {c : Char} (h : isDig c = true) : isPySpace c = false := by
  revert h
  unfold isDig isPySpace
  simp only [Bool.and_eq_true, Bool.or_eq_true, decide_eq_true_eq,
    beq_iff_eq, Bool.or_eq_false_iff, beq_eq_false_iff_ne, ne_eq]
  omega

/-- Class disjointness: an item-identifier character is not whitespace. -/
theorem idCls_not_ws {c : Char} (h : idCls c = true) : isPySpace c = false := by
  revert h
  unfold idCls isUp isDig isPySpace
  simp only [Bool.and_eq_true, Bool.or_eq_true, decide_eq_true_eq,
    beq_iff_eq, Bool.or_eq_false_iff, beq_eq_false_iff_ne, ne_eq]
  omega

/-- Class disjointness: a digit-or-comma character is not whitespace. -/
theorem dc_not_ws {c : Char} (h : digitComma c = true) : isPySpace c = false := by
  revert h
  unfold digitComma isDig isPySpace
  simp only [Bool.and_eq_true, Bool.or_eq_true, decide_eq_true_eq,
    beq_iff_eq, Bool.or_eq_false_iff, beq_eq_false_iff_ne, ne_eq]
  omega

/-! ## Symbolic evaluation of the line-item pattern

The next theorem runs the matcher on an arbitrary well-separated item
header line and computes the match Python commits to.  The components are
quantified: line number, identifier, quantity, unit price `ui.uf`, and
total `ti.tf`; the fractional part `tf` of the total may have any length
`≥ 2`, and the pattern consumes exactly its first two digits. -/

theorem matchHead_lineItem
    {ln id qty ui uf ti tf rest : List Char}
    (hln : ln ≠ []) (hln2 : ∀ c ∈ ln, isDig c = true)
    (hid : id ≠ []) (hid2 : ∀ c ∈ id, idCls c = true)
    (hq : qty ≠ []) (hq2 : ∀ c ∈ qty, isDig c = true)
    (hui : ui ≠ []) (hui2 : ∀ c ∈ ui, digitComma c = true)
    (huf : uf ≠ []) (huf2 : ∀ c ∈ uf, isDig c = true)
    (hti : ti ≠ []) (hti2 : ∀ c ∈ ti, digitComma c = true)
    (htf2 : ∀ c ∈ tf, isDig c = true) (htfl : 2 ≤ tf.length) :
    matchHead lineItemRE
      (ln ++ (' ' :: (id ++ (' ' :: (qty ++ (' ' :: 'E' :: 'A' :: 'C' :: ' ' ::
        (ui ++ ('.' :: (uf ++ ('E' :: 'A' :: 'C' :: ' ' ::
          (ti ++ ('.' :: (tf ++ rest))))))))))))) =
      some ([(1, ln), (2, id), (3, qty), (4, ui ++ '.' :: uf),
        (5, ti ++ '.' :: tf.take 2)], tf.drop 2 ++ rest) := by
  unfold matchHead
  simp only [lineItemRE, seqs]
  rw [matchK_seq_eq, matchK_grp_eq]
  refine matchK_cls_full_head hln2 ?_ (List.length_pos.mpr hln) (by simp) ?_
  · exact head_cons_false (by decide)
  dsimp only
  rw [take_consumed]
  rw [matchK_seq_eq]
  refine matchK_wsp1_single ?_ ?_
  · exact head_append_false hid hid2 fun c h => idCls_not_ws h
  dsimp only
  rw [matchK_seq_eq, matchK_grp_eq]
  refine matchK_cls_full_head hid2 ?_ (List.length_pos.mpr hid) (by simp) ?_
  · exact head_cons_false (by decide)
  dsimp only
  rw [take_consumed]
  rw [matchK_seq_eq]
  refine matchK_wsp1_single ?_ ?_
  · exact head_append_false hq hq2 fun c h => dig_not_ws h
  dsimp only
  rw [matchK_seq_eq, matchK_grp_eq]
  refine matchK_cls_full_head hq2 ?_ (List.length_pos.mpr hq) (by simp) ?_
  · exact head_cons_false (by decide)
  dsimp only
  rw [take_consumed]
  rw [matchK_seq_eq]
  refine matchK_wsp1_single ?_ ?_
  · exact head_cons_false (by decide)
  dsimp only
  rw [matchK_seq_eq]
  refine matchK_lit_head ?_
  dsimp only
  rw [matchK_seq_eq]
  refine matchK_wsp1_single ?_ ?_
  · exact head_append_false hui hui2 fun c h => dc_not_ws h
  dsimp only
  rw [matchK_seq_eq, matchK_grp_eq, matchK_seq_eq]
  refine matchK_cls_full_head hui2 ?_ (List.length_pos.mpr hui) (by simp) ?_
  · exact head_cons_false (by decide)
  dsimp only
  rw [matchK_seq_eq]
  refine matchK_lit_head ?_
  dsimp only
  refine matchK_cls_full_head huf2 ?_ (List.length_pos.mpr huf) (by simp) ?_
  · exact head_cons_false (by decide)
  dsimp only
  rw [take_consumed_mid]
  rw [matchK_seq_eq]
  refine matchK_wsp0_zero ?_ ?_
  · exact head_cons_false (by decide)
  dsimp only
  rw [matchK_seq_eq]
  refine matchK_lit_head ?_
  dsimp only
  rw [matchK_seq_eq]
  refine matchK_wsp1_single ?_ ?_
  · exact head_append_false hti hti2 fun c h => dc_not_ws h
  dsimp only
  rw [matchK_grp_eq, matchK_seq_eq]
  refine matchK_cls_full_head hti2 ?_ (List.length_pos.mpr hti) (by simp) ?_
  · exact head_cons_false (by decide)
  dsimp only
  rw [matchK_seq_eq]
  refine matchK_lit_head ?_
  dsimp only
  refine matchK_cls_capped_head ?_ (by omega) ?_
  · simp only [List.append_eq]
    rw [takeWhile_all_append rest htf2, List.length_append]
    omega
  simp only [List.append_eq]
  rw [List.drop_append_of_le_length htfl]
  rw [take_consumed_capped]
  simp


/-! ## Symbolic failure of the line-item pattern on a short total

Helpers for showing that every backtracking alternative fails. -/

theorem takeWhile_length_le (p : Char → Bool) (l : List Char) :
    (l.takeWhile p).length ≤ l.length := by
  induction l with
  | nil => simp
  | cons c l ih =>
      by_cases hp : p c = true
      · simp only [List.takeWhile_cons, hp, if_true, List.length_cons]
        omega
      · simp only [List.takeWhile_cons, if_neg hp]
        simp

theorem head_drop_append {q p : Char → Bool} {a X : List Char} {j : Nat}
    (hj : j < a.length) (hall : ∀ c ∈ a, q c = true)
    (himp : ∀ c, q c = true → p c = false) :
    ∀ c, (a.drop j ++ X).head? = some c → p c = false := by
  intro c hc
  have hne : a.drop j ≠ [] := by
    intro hnil
    have := List.length_drop j a
    rw [hnil] at this
    simp at this
    omega
  refine head_append_false hne (fun x hx => hall x (List.mem_of_mem_drop hx))
    himp c hc

theorem isPrefixOf_cons_ne {x c : Char} {nd l : List Char}
    (h : (x == c) = false) :
    List.isPrefixOf (x :: nd) (c :: l) = false := by
  simp only [List.isPrefixOf, Bool.and_eq_false_iff]
  exact Or.inl h

theorem matchK_lit_nil_head {x : Char} {nd s : List Char}
    {k : Caps → List Char → MRes}
    (h : ∀ c, s.head? = some c → (x == c) = false) :
    matchK (.lit (x :: nd)) s k = [] := by
  apply matchK_lit_nil
  cases s with
  | nil => rfl
  | cons c l => exact isPrefixOf_cons_ne (h c rfl)

theorem dc_not_dot {c : Char} (h : digitComma c = true) : ('.' == c) = false := by
  rw [beq_eq_false_iff_ne]
  intro he
  rw [← he] at h
  exact absurd h (by decide)

theorem dig_not_E {c : Char} (h : isDig c = true) : ('E' == c) = false := by
  rw [beq_eq_false_iff_ne]
  intro he
  rw [← he] at h
  exact absurd h (by decide)

theorem clsLens_self (n : Nat) (g : Bool) : clsLens n n g = [n] := by
  unfold clsLens
  have h1 : List.range 1 = [0] := rfl
  cases g <;> simp [h1]

/-- A class whose minimum equals the full run length has exactly one
alternative: consume the whole run. -/
theorem matchK_cls_run_eq {p : Char → Bool} {lo : Nat} {hi : Option Nat}
    {g : Bool} {a X : List Char} {k : Caps → List Char → MRes}
    (ha : ∀ c ∈ a, p c = true)
    (hX : ∀ c, X.head? = some c → p c = false)
    (hlo : lo = a.length) (hhi : a.length ≤ hi.getD a.length) :
    matchK (.cls p lo hi g) (a ++ X) k = k [] X := by
  rw [matchK_cls_eq, takeWhile_run ha hX,
    show min a.length (hi.getD a.length) = a.length by omega, hlo,
    clsLens_self]
  simp [List.drop_left]

theorem matchK_wsp1_eq {s : List Char} {k : Caps → List Char → MRes}
    (hs : ∀ c, s.head? = some c → isPySpace c = false) :
    matchK wsp1 (' ' :: s) k = k [] s := by
  have h : (' ' :: s) = [' '] ++ s := rfl
  rw [h]
  exact matchK_cls_run_eq (by decide) hs rfl (by simp)

theorem matchK_wsp0_eq {s : List Char} {k : Caps → List Char → MRes}
    (hs : ∀ c, s.head? = some c → isPySpace c = false) :
    matchK wsp0 s k = k [] s := by
  have h : s = [] ++ s := rfl
  rw [h]
  exact matchK_cls_run_eq (by simp) hs rfl (by simp)

theorem matchK_litEAC {s : List Char} {k : Caps → List Char → MRes} :
    matchK (.lit "EAC".toList) ('E' :: 'A' :: 'C' :: s) k = k [] s :=
  matchK_lit_run rfl

theorem matchK_litDot {s : List Char} {k : Caps → List Char → MRes} :
    matchK (.lit ['.']) ('.' :: s) k = k [] s :=
  matchK_lit_run rfl

/-- A greedy class over a full run whose every alternative fails. -/
theorem matchK_cls_run_nil {p : Char → Bool} {lo : Nat} {hi : Option Nat}
    {g : Bool} {a X : List Char} {k : Caps → List Char → MRes}
    (ha : ∀ c ∈ a, p c = true)
    (hX : ∀ c, X.head? = some c → p c = false)
    (hhi : a.length ≤ hi.getD a.length)
    (hshort : ∀ j, lo ≤ j → j < a.length → k [] (a.drop j ++ X) = [])
    (hfull : k [] X = []) :
    matchK (.cls p lo hi g) (a ++ X) k = [] := by
  have hrun : (a ++ X).takeWhile p = a := takeWhile_run ha hX
  refine matchK_cls_nil fun j h1 h2 => ?_
  rw [hrun] at h2
  have hja : j ≤ a.length := by omega
  rcases Nat.lt_or_ge j a.length with hlt | hge
  · rw [List.drop_append_of_le_length hja]
    exact hshort j h1 hlt
  · have : j = a.length := by omega
    subst this
    rw [List.drop_left]
    exact hfull


/-- A well-separated item header line whose total has fewer than two
fractional digits does not match the line-item pattern (anchored at the
start of the line): every backtracking alternative fails at the final
`\\d{2}`. -/
theorem matchHead_lineItem_short
    {ln id qty ui uf ti tf : List Char}
    (hln2 : ∀ c ∈ ln, isDig c = true)
    (hid : id ≠ []) (hid2 : ∀ c ∈ id, idCls c = true)
    (hq : qty ≠ []) (hq2 : ∀ c ∈ qty, isDig c = true)
    (hui : ui ≠ []) (hui2 : ∀ c ∈ ui, digitComma c = true)
    (huf2 : ∀ c ∈ uf, isDig c = true)
    (hti : ti ≠ []) (hti2 : ∀ c ∈ ti, digitComma c = true)
    (htfl : tf.length < 2) :
    matchHead lineItemRE
      (ln ++ (' ' :: (id ++ (' ' :: (qty ++ (' ' :: 'E' :: 'A' :: 'C' :: ' ' ::
        (ui ++ ('.' :: (uf ++ ('E' :: 'A' :: 'C' :: ' ' ::
          (ti ++ ('.' :: tf)))))))))))) = none := by
  unfold matchHead
  have hnil : matchK lineItemRE
      (ln ++ (' ' :: (id ++ (' ' :: (qty ++ (' ' :: 'E' :: 'A' :: 'C' :: ' ' ::
        (ui ++ ('.' :: (uf ++ ('E' :: 'A' :: 'C' :: ' ' ::
          (ti ++ ('.' :: tf))))))))))))
      (fun caps rest => [(caps, rest)]) = [] := by
    simp only [lineItemRE, seqs]
    rw [matchK_seq_eq, matchK_grp_eq]
    refine matchK_cls_run_nil hln2 (head_cons_false (by decide)) (by simp) ?_ ?_
    · intro j hj1 hj2
      dsimp only
      rw [matchK_seq_eq]
      exact matchK_cls_nil_head (Nat.le_refl 1)
        (head_drop_append hj2 hln2 fun c h => dig_not_ws h)
    dsimp only
    rw [matchK_seq_eq,
      matchK_wsp1_eq (head_append_false hid hid2 fun c h => idCls_not_ws h)]
    rw [matchK_seq_eq, matchK_grp_eq]
    refine matchK_cls_run_nil hid2 (head_cons_false (by decide)) (by simp) ?_ ?_
    · intro j hj1 hj2
      dsimp only
      rw [matchK_seq_eq]
      exact matchK_cls_nil_head (Nat.le_refl 1)
        (head_drop_append hj2 hid2 fun c h => idCls_not_ws h)
    dsimp only
    rw [matchK_seq_eq,
      matchK_wsp1_eq (head_append_false hq hq2 fun c h => dig_not_ws h)]
    rw [matchK_seq_eq, matchK_grp_eq]
    refine matchK_cls_run_nil hq2 (head_cons_false (by decide)) (by simp) ?_ ?_
    · intro j hj1 hj2
      dsimp only
      rw [matchK_seq_eq]
      exact matchK_cls_nil_head (Nat.le_refl 1)
        (head_drop_append hj2 hq2 fun c h => dig_not_ws h)
    dsimp only
    rw [matchK_seq_eq, matchK_wsp1_eq (head_cons_false (by decide))]
    rw [matchK_seq_eq, matchK_litEAC]
    rw [matchK_seq_eq,
      matchK_wsp1_eq (head_append_false hui hui2 fun c h => dc_not_ws h)]
    rw [matchK_seq_eq, matchK_grp_eq, matchK_seq_eq]
    refine matchK_cls_run_nil hui2 (head_cons_false (by decide)) (by simp) ?_ ?_
    · intro j hj1 hj2
      dsimp only
      rw [matchK_seq_eq]
      exact matchK_lit_nil_head
        (head_drop_append hj2 hui2 fun c h => dc_not_dot h)
    dsimp only
    rw [matchK_seq_eq, matchK_litDot]
    refine matchK_cls_run_nil huf2 (head_cons_false (by decide)) (by simp) ?_ ?_
    · intro j hj1 hj2
      dsimp only
      rw [matchK_seq_eq,
        matchK_wsp0_eq (head_drop_append hj2 huf2 fun c h => dig_not_ws h)]
      rw [matchK_seq_eq]
      exact matchK_lit_nil_head
        (head_drop_append hj2 huf2 fun c h => dig_not_E h)
    dsimp only
    rw [matchK_seq_eq, matchK_wsp0_eq (head_cons_false (by decide))]
    rw [matchK_seq_eq, matchK_litEAC]
    rw [matchK_seq_eq,
      matchK_wsp1_eq (head_append_false hti hti2 fun c h => dc_not_ws h)]
    rw [matchK_grp_eq, matchK_seq_eq]
    refine matchK_cls_run_nil hti2 (head_cons_false (by decide)) (by simp) ?_ ?_
    · intro j hj1 hj2
      dsimp only
      rw [matchK_seq_eq]
      exact matchK_lit_nil_head
        (head_drop_append hj2 hti2 fun c h => dc_not_dot h)
    dsimp only
    rw [matchK_seq_eq, matchK_litDot]
    refine matchK_cls_nil fun j h1 h2 => ?_
    exfalso
    have hm := takeWhile_length_le isDig tf
    have hmin : min (tf.takeWhile isDig).length
        ((some 2 : Option Nat).getD (tf.takeWhile isDig).length) ≤ tf.length :=
      le_trans (min_le_left _ _) hm
    omega
  rw [hnil]
  rfl


/-! ## Symbolic evaluation of the street-address pattern -/

theorem w1cls_not_dig {c : Char}
    (h : (isUp c || isLow c || c.toNat == 32 || c.toNat == 46) = true) :
    isDig c = false := by
  revert h
  unfold isUp isLow isDig
  simp only [Bool.and_eq_true, Bool.or_eq_true, decide_eq_true_eq,
    beq_iff_eq, Bool.and_eq_false_iff, Bool.or_eq_false_iff,
    beq_eq_false_iff_ne, ne_eq, decide_eq_false_iff_not, not_le]
  omega

theorem w1cls_not_ws {c : Char}
    (h : (isUp c || isLow c || c.toNat == 32 || c.toNat == 46) = true)
    (h32 : c.toNat ≠ 32) : isPySpace c = false := by
  revert h
  unfold isUp isLow isPySpace
  simp only [Bool.and_eq_true, Bool.or_eq_true, decide_eq_true_eq,
    beq_iff_eq, Bool.or_eq_false_iff, beq_eq_false_iff_ne, ne_eq]
  omega

theorem w1cls_addr1 {c : Char}
    (h : (isUp c || isLow c || c.toNat == 32 || c.toNat == 46) = true) :
    addr1Cls c = true := by
  revert h
  unfold addr1Cls
  simp only [Bool.or_eq_true]
  tauto

theorem addr2cls_not_ws {c : Char} (h : addr2Cls c = true)
    (h32 : c.toNat ≠ 32) : isPySpace c = false := by
  revert h
  unfold addr2Cls isUp isLow isDig isPySpace
  simp only [Bool.and_eq_true, Bool.or_eq_true, decide_eq_true_eq,
    beq_iff_eq, Bool.or_eq_false_iff, beq_eq_false_iff_ne, ne_eq]
  omega

/-- Greedy class consuming the entire remaining text. -/
theorem matchK_cls_all_head {p : Char → Bool} {lo : Nat} {hi : Option Nat}
    {s : List Char} {k : Caps → List Char → MRes} {v : Caps × List Char}
    (ha : ∀ c ∈ s, p c = true) (hlo : lo ≤ s.length)
    (hhi : s.length ≤ hi.getD s.length)
    (hk : (k [] []).head? = some v) :
    (matchK (.cls p lo hi true) s k).head? = some v := by
  have hrun : s.takeWhile p = s := List.takeWhile_eq_self_iff.mpr ha
  refine matchK_cls_greedy_head (m := s.length) ?_ hlo ?_
  · rw [hrun]
    omega
  · rw [List.drop_length]
    exact hk

/-- The pattern cannot match at a position whose first character is not a
digit (its first element is `\\d{3,6}`). -/
theorem matchHead_addrRE_nondigit {s : List Char}
    (h : ∀ x, s.head? = some x → isDig x = false) :
    matchHead addrRE s = none := by
  unfold matchHead
  have hnil : matchK addrRE s (fun caps rest => [(caps, rest)]) = [] := by
    simp only [addrRE, seqs]
    rw [matchK_seq_eq, matchK_grp_eq, matchK_seq_eq]
    exact matchK_cls_nil_head (by omega) h
  rw [hnil]
  rfl

/-- Running the street-address pattern on a block that is exactly two
well-separated numeric-led runs, the street-name part of the first run
containing no digits: the match consumes everything and group 1 captures
exactly the first run. -/
theorem matchHead_addrRE
    {d1 w1 d2 w2 : List Char}
    (hd1 : ∀ c ∈ d1, isDig c = true) (hd1l : 3 ≤ d1.length)
    (hd1u : d1.length ≤ 6)
    (hw1 : w1 ≠ [])
    (hw1c : ∀ c ∈ w1, (isUp c || isLow c || c.toNat == 32 || c.toNat == 46) = true)
    (hw1h : ∀ c, w1.head? = some c → c.toNat ≠ 32)
    (hw1last : ∀ c, w1.getLast? = some c → c.toNat ≠ 32)
    (hd2 : ∀ c ∈ d2, isDig c = true) (hd2l : 3 ≤ d2.length)
    (hd2u : d2.length ≤ 6)
    (hw2 : w2 ≠ []) (hw2c : ∀ c ∈ w2, addr2Cls c = true)
    (hw2h : ∀ c, w2.head? = some c → c.toNat ≠ 32) :
    matchHead addrRE (d1 ++ (' ' :: (w1 ++ (' ' :: (d2 ++ (' ' :: w2)))))) =
      some ([(1, d1 ++ ' ' :: w1)], []) := by
  have hd1ne : d1 ≠ [] := by
    intro hnil
    rw [hnil] at hd1l
    simp at hd1l
  have hd2ne : d2 ≠ [] := by
    intro hnil
    rw [hnil] at hd2l
    simp at hd2l
  unfold matchHead
  simp only [addrRE, seqs]
  rw [matchK_seq_eq, matchK_grp_eq, matchK_seq_eq]
  refine matchK_cls_full_head hd1 (head_cons_false (by decide))
    (by omega) (by simpa using hd1u) ?_
  dsimp only
  rw [matchK_seq_eq]
  refine matchK_wsp1_single ?_ ?_
  · intro x hx
    cases w1 with
    | nil => exact absurd rfl hw1
    | cons a as =>
        rw [List.cons_append, List.head?_cons] at hx
        rw [← Option.some.inj hx]
        exact w1cls_not_ws (hw1c a (List.mem_cons_self a as)) (hw1h a rfl)
  dsimp only
  refine matchK_cls_lazy_head (List.length_pos.mpr hw1) ?_ ?_ ?_
  · rw [takeWhile_all_append _ fun c hc => w1cls_addr1 (hw1c c hc)]
    simp
  · intro jj hjj1 hjj2
    dsimp only
    rw [List.drop_append_of_le_length (by omega), matchK_seq_eq]
    refine matchK_cls_nil ?_
    intro j2 hj21 hj22
    dsimp only
    have hwit : ∃ x ∈ w1.drop jj, isPySpace x = false := by
      cases hglast : w1.getLast? with
      | none => exact absurd (List.getLast?_eq_none_iff.mp hglast) hw1
      | some g =>
          refine ⟨g, ?_, ?_⟩
          · have hgd : (w1.drop jj).getLast? = some g := by
              rw [List.getLast?_drop, if_neg (by omega)]
              exact hglast
            exact List.mem_of_getLast?_eq_some hgd
          · exact w1cls_not_ws
              (hw1c g (List.mem_of_getLast?_eq_some hglast))
              (hw1last g hglast)
    have hrlt := takeWhile_len_lt
      (' ' :: (d2 ++ (' ' :: w2))) hwit
    simp only [Option.getD_none, Nat.min_self] at hj22
    have hdl : (w1.drop jj).length = w1.length - jj := List.length_drop jj w1
    have hlen : j2 ≤ (w1.drop jj).length := by omega
    rw [List.drop_append_of_le_length hlen, List.drop_drop, matchK_seq_eq]
    refine matchK_cls_nil_head (by omega) ?_
    exact head_drop_append (by omega) hw1c fun c h => w1cls_not_dig h
  rw [List.drop_left]
  rw [take_consumed_mid]
  rw [matchK_seq_eq]
  refine matchK_wsp1_single ?_ ?_
  · exact head_append_false hd2ne hd2 fun c h => dig_not_ws h
  dsimp only
  rw [matchK_seq_eq]
  refine matchK_cls_full_head hd2 (head_cons_false (by decide))
    (by omega) (by simpa using hd2u) ?_
  dsimp only
  rw [matchK_seq_eq]
  refine matchK_wsp1_single ?_ ?_
  · intro x hx
    cases w2 with
    | nil => exact absurd rfl hw2
    | cons a as =>
        rw [List.head?_cons] at hx
        rw [← Option.some.inj hx]
        exact addr2cls_not_ws (hw2c a (List.mem_cons_self a as)) (hw2h a rfl)
  dsimp only
  refine matchK_cls_all_head hw2c (List.length_pos.mpr hw2) (by simp) ?_
  simp


/-! ## Projection lemmas for the header stages -/

theorem addrFields_keeps (h : Header) (b : List Char) :
    (addrFields h b).quoteNumber = h.quoteNumber ∧
    (addrFields h b).quoteDate = h.quoteDate ∧
    (addrFields h b).customerNumber = h.customerNumber ∧
    (addrFields h b).firstName = h.firstName ∧
    (addrFields h b).lastName = h.lastName ∧
    (addrFields h b).quoteValidDate = h.quoteValidDate := by
  unfold addrFields
  dsimp only
  split <;> split <;> split <;> split <;> simp

theorem addrFields_company_none {b : List Char} (h : Header)
    (hs : reSearch companyRE b = none) :
    (addrFields h b).company = h.company := by
  unfold addrFields
  dsimp only
  simp only [hs]
  repeat' split
  all_goals simp_all

theorem addrFields_address_none {b : List Char} (h : Header)
    (hs : reSearch addrRE b = none) :
    (addrFields h b).address = h.address := by
  unfold addrFields
  dsimp only
  simp only [hs]
  repeat' split
  all_goals simp_all

theorem addrFields_address_some {b : List Char} {m : MatchRes} (h : Header)
    (hs : reSearch addrRE b = some m) :
    (addrFields h b).address = some (pyStrip (capStr m 1)) := by
  unfold addrFields
  dsimp only
  simp only [hs]
  repeat' split
  all_goals simp_all

theorem addrFields_city_none {b : List Char} (h : Header)
    (hs : reSearch cityRE b = none) :
    (addrFields h b).city = h.city ∧ (addrFields h b).state = h.state ∧
      (addrFields h b).zipCode = h.zipCode := by
  unfold addrFields
  dsimp only
  simp only [hs]
  repeat' split
  all_goals simp_all

theorem addrFields_country_none {b : List Char} (h : Header)
    (hc : containsSub b "United States of America".toList = false) :
    (addrFields h b).country = h.country := by
  unfold addrFields
  dsimp only
  simp only [hc]
  repeat' split
  all_goals simp_all

theorem addrFields_nil (h : Header) : addrFields h [] = h := by
  unfold addrFields
  rw [show reSearch companyRE [] = none from rfl,
    show reSearch addrRE [] = none from rfl,
    show reSearch cityRE [] = none from rfl,
    show containsSub [] "United States of America".toList = false from rfl]
  rfl

theorem headerQuote_base (t : List Char) :
    (headerQuote t).customerNumber = none ∧
    (headerQuote t).firstName = none ∧ (headerQuote t).lastName = none ∧
    (headerQuote t).company = none ∧ (headerQuote t).address = none ∧
    (headerQuote t).city = none ∧ (headerQuote t).state = none ∧
    (headerQuote t).zipCode = none ∧ (headerQuote t).country = none ∧
    (headerQuote t).quoteValidDate = none := by
  unfold headerQuote
  split <;> simp

theorem headerCust_keeps (t : List Char) :
    (headerCust t).quoteNumber = (headerQuote t).quoteNumber ∧
    (headerCust t).quoteDate = (headerQuote t).quoteDate ∧
    (headerCust t).firstName = (headerQuote t).firstName ∧
    (headerCust t).lastName = (headerQuote t).lastName ∧
    (headerCust t).company = (headerQuote t).company ∧
    (headerCust t).address = (headerQuote t).address ∧
    (headerCust t).city = (headerQuote t).city ∧
    (headerCust t).state = (headerQuote t).state ∧
    (headerCust t).zipCode = (headerQuote t).zipCode ∧
    (headerCust t).country = (headerQuote t).country ∧
    (headerCust t).quoteValidDate = (headerQuote t).quoteValidDate := by
  unfold headerCust
  split <;> simp

theorem headerContact_keeps (t : List Char) :
    (headerContact t).quoteNumber = (headerCust t).quoteNumber ∧
    (headerContact t).quoteDate = (headerCust t).quoteDate ∧
    (headerContact t).customerNumber = (headerCust t).customerNumber ∧
    (headerContact t).company = (headerCust t).company ∧
    (headerContact t).address = (headerCust t).address ∧
    (headerContact t).city = (headerCust t).city ∧
    (headerContact t).state = (headerCust t).state ∧
    (headerContact t).zipCode = (headerCust t).zipCode ∧
    (headerContact t).country = (headerCust t).country ∧
    (headerContact t).quoteValidDate = (headerCust t).quoteValidDate := by
  unfold headerContact
  simp

theorem headerAddr_keeps (t : List Char) :
    (headerAddr t).quoteNumber = (headerContact t).quoteNumber ∧
    (headerAddr t).quoteDate = (headerContact t).quoteDate ∧
    (headerAddr t).customerNumber = (headerContact t).customerNumber ∧
    (headerAddr t).firstName = (headerContact t).firstName ∧
    (headerAddr t).lastName = (headerContact t).lastName ∧
    (headerAddr t).quoteValidDate = (headerContact t).quoteValidDate := by
  unfold headerAddr
  split
  · exact addrFields_keeps _ _
  · exact ⟨rfl, rfl, rfl, rfl, rfl, rfl⟩

theorem ehi_keeps (t : List Char) :
    (extract_header_info t).quoteNumber = (headerAddr t).quoteNumber ∧
    (extract_header_info t).quoteDate = (headerAddr t).quoteDate ∧
    (extract_header_info t).customerNumber = (headerAddr t).customerNumber ∧
    (extract_header_info t).firstName = (headerAddr t).firstName ∧
    (extract_header_info t).lastName = (headerAddr t).lastName ∧
    (extract_header_info t).company = (headerAddr t).company ∧
    (extract_header_info t).address = (headerAddr t).address ∧
    (extract_header_info t).city = (headerAddr t).city ∧
    (extract_header_info t).state = (headerAddr t).state ∧
    (extract_header_info t).zipCode = (headerAddr t).zipCode ∧
    (extract_header_info t).country = (headerAddr t).country := by
  unfold extract_header_info
  split <;> simp


/-! ## Structure of the item list -/

theorem itemsFrom_length (t : List Char) :
    ∀ ms : List MatchRes, (itemsFrom t ms).length = ms.length := by
  intro ms
  induction ms with
  | nil => rfl
  | cons m rest ih => simp only [itemsFrom, List.length_cons, ih]

theorem itemsFrom_get (t : List Char) :
    ∀ (ms : List MatchRes) (i : Nat) (m : MatchRes), ms[i]? = some m →
      ∃ d, (itemsFrom t ms)[i]? =
        some ⟨capStr m 1, capStr m 2, capStr m 3, capStr m 4, capStr m 5, d⟩ := by
  intro ms
  induction ms with
  | nil => intro i m h; simp at h
  | cons m0 rest ih =>
      intro i m h
      cases i with
      | zero =>
          simp only [List.getElem?_cons_zero, Option.some.injEq] at h
          subst h
          refine ⟨collapseWs (pyStrip (sliceL t m0.stop
            (match rest with
             | m2 :: _ => m2.start
             | [] =>
                 match strFind t "Product".toList m0.stop with
                 | some j => j
                 | none => t.length))), ?_⟩
          simp only [itemsFrom, List.getElem?_cons_zero, Option.some.injEq]
          cases rest <;> rfl
      | succ i =>
          simp only [List.getElem?_cons_succ] at h
          obtain ⟨d, hd⟩ := ih i m h
          exact ⟨d, by simpa [itemsFrom] using hd⟩

theorem itemsFrom_desc (t : List Char) :
    ∀ (ms : List MatchRes) (i : Nat) (m1 m2 : MatchRes),
      ms[i]? = some m1 → ms[i + 1]? = some m2 →
      ((itemsFrom t ms)[i]?).map Item.description =
        some (collapseWs (pyStrip (sliceL t m1.stop m2.start))) := by
  intro ms
  induction ms with
  | nil => intro i m1 m2 h; simp at h
  | cons m0 rest ih =>
      intro i m1 m2 h1 h2
      cases i with
      | zero =>
          simp only [List.getElem?_cons_zero, Option.some.injEq] at h1
          subst h1
          simp only [List.getElem?_cons_succ] at h2
          cases rest with
          | nil => simp at h2
          | cons mb rest2 =>
              simp only [List.getElem?_cons_zero, Option.some.injEq] at h2
              subst h2
              simp [itemsFrom]
      | succ i =>
          simp only [List.getElem?_cons_succ] at h1 h2
          simpa [itemsFrom] using ih i m1 m2 h1 h2

theorem itemsFrom_last (t : List Char) :
    ∀ (ms : List MatchRes) (m : MatchRes), ms.getLast? = some m →
      (itemsFrom t ms).getLast? =
        some ⟨capStr m 1, capStr m 2, capStr m 3, capStr m 4, capStr m 5,
          collapseWs (pyStrip (sliceL t m.stop
            (match strFind t "Product".toList m.stop with
             | some j => j
             | none => t.length)))⟩ := by
  intro ms
  induction ms with
  | nil => intro m h; simp at h
  | cons m0 rest ih =>
      intro m h
      cases rest with
      | nil =>
          simp only [List.getLast?_singleton, Option.some.injEq] at h
          subst h
          simp [itemsFrom]
      | cons m1 rest2 =>
          rw [List.getLast?_cons_cons] at h
          have hr := ih m h
          have hne : itemsFrom t (m1 :: rest2) ≠ [] := by
            intro hnil
            have := itemsFrom_length t (m1 :: rest2)
            rw [hnil] at this
            simp at this
          obtain ⟨y, L, hL⟩ := List.exists_cons_of_ne_nil hne
          obtain ⟨z, hz⟩ : ∃ z, itemsFrom t (m0 :: m1 :: rest2) =
              z :: itemsFrom t (m1 :: rest2) := ⟨_, rfl⟩
          rw [hz, hL, List.getLast?_cons_cons, ← hL]
          exact hr

/-! ## Scanning a single matched line -/

theorem findMAux_single {re : RE} {fuel : Nat} {s rem : List Char} {pos : Nat}
    {caps : Caps}
    (hm : matchHead re s = some (caps, rem)) (hlt : rem.length < s.length)
    (hrem : ∀ i, matchHead re (rem.drop i) = none) :
    findMAux re (fuel + 1) s pos true =
      [⟨pos, pos + (s.length - rem.length), caps⟩] := by
  cases s with
  | nil => simp at hlt
  | cons c rest =>
      have heq : findMAux re (fuel + 1) (c :: rest) pos true =
          match matchHead re (c :: rest) with
          | some (caps, rem) =>
              if (c :: rest).length - rem.length = 0 then
                findMAux re fuel rest (pos + 1) (c == '\n')
              else
                ⟨pos, pos + ((c :: rest).length - rem.length), caps⟩ ::
                  findMAux re fuel rem (pos + ((c :: rest).length - rem.length))
                    (((c :: rest).take ((c :: rest).length - rem.length)).getLast?
                      == some '\n')
          | none => findMAux re fuel rest (pos + 1) (c == '\n') := rfl
      rw [heq, hm]
      dsimp only
      rw [if_neg (by simp only [List.length_cons] at hlt ⊢; omega),
        findMAux_nil_of_nomatch fuel rem _ _ hrem]

theorem drop_consumed (a rest : List Char) :
    (a ++ rest).drop ((a ++ rest).length - rest.length) = rest := by
  rw [List.length_append, show a.length + rest.length - rest.length = a.length
    by omega, List.drop_left]

theorem slice_consumed (t a rest : List Char) (h : t = a ++ rest) :
    sliceL t (t.length - rest.length) t.length = rest := by
  subst h
  unfold sliceL
  rw [drop_consumed, show (a ++ rest).length - ((a ++ rest).length - rest.length)
    = rest.length by rw [List.length_append]; omega, List.take_length]

theorem dig_not_P {c : Char} (h : isDig c = true) : (c == 'P') = false := by
  rw [beq_eq_false_iff_ne]
  intro he
  rw [he] at h
  exact absurd h (by decide)


/-- No suffix consisting only of digits matches the line-item pattern
(the pattern needs whitespace after its leading digit run). -/
theorem matchHead_lineItem_digits {s : List Char}
    (h : ∀ c ∈ s, isDig c = true) : matchHead lineItemRE s = none := by
  unfold matchHead
  have hnil : matchK lineItemRE s (fun caps rest => [(caps, rest)]) = [] := by
    simp only [lineItemRE, seqs]
    rw [matchK_seq_eq, matchK_grp_eq]
    refine matchK_cls_nil ?_
    intro j hj1 hj2
    dsimp only
    rw [matchK_seq_eq]
    refine matchK_cls_nil_head (Nat.le_refl 1) ?_
    intro c hc
    have hmem : c ∈ s.drop j := List.mem_of_mem_head? (Option.mem_def.mpr hc)
    exact dig_not_ws (h c (List.mem_of_mem_drop hmem))
  rw [hnil]
  rfl

/-- `extract_line_items` on a text that is exactly one well-separated item
header line: one item, whose total keeps only the first two fractional
digits and whose description is the left-over tail of the total. -/
theorem extract_line_items_single
    {ln id qty ui uf ti tf : List Char}
    (hln : ln ≠ []) (hln2 : ∀ c ∈ ln, isDig c = true)
    (hid : id ≠ []) (hid2 : ∀ c ∈ id, idCls c = true)
    (hq : qty ≠ []) (hq2 : ∀ c ∈ qty, isDig c = true)
    (hui : ui ≠ []) (hui2 : ∀ c ∈ ui, digitComma c = true)
    (huf : uf ≠ []) (huf2 : ∀ c ∈ uf, isDig c = true)
    (hti : ti ≠ []) (hti2 : ∀ c ∈ ti, digitComma c = true)
    (htf2 : ∀ c ∈ tf, isDig c = true) (htfl : 2 ≤ tf.length) :
    extract_line_items
      (ln ++ (' ' :: (id ++ (' ' :: (qty ++ (' ' :: 'E' :: 'A' :: 'C' :: ' ' ::
        (ui ++ ('.' :: (uf ++ ('E' :: 'A' :: 'C' :: ' ' ::
          (ti ++ ('.' :: tf)))))))))))) =
      [⟨ln, id, qty, ui ++ '.' :: uf, ti ++ '.' :: tf.take 2, tf.drop 2⟩] := by
  have hm := @matchHead_lineItem ln id qty ui uf ti tf [] hln hln2 hid hid2
    hq hq2 hui hui2 huf huf2 hti hti2 htf2 htfl
  simp only [List.append_nil] at hm
  set LINE := ln ++ (' ' :: (id ++ (' ' :: (qty ++ (' ' :: 'E' :: 'A' :: 'C' ::
    ' ' :: (ui ++ ('.' :: (uf ++ ('E' :: 'A' :: 'C' :: ' ' ::
      (ti ++ ('.' :: tf))))))))))) with hLINE
  have hsplit : LINE = (ln ++ (' ' :: (id ++ (' ' :: (qty ++ (' ' :: 'E' ::
      'A' :: 'C' :: ' ' :: (ui ++ ('.' :: (uf ++ ('E' :: 'A' :: 'C' :: ' ' ::
        (ti ++ ('.' :: tf.take 2)))))))))))) ++ tf.drop 2 := by
    rw [hLINE]
    conv_lhs => rw [← List.take_append_drop 2 tf]
    simp
  have hlnpos : 0 < ln.length := List.length_pos.mpr hln
  have hlen : (tf.drop 2).length < LINE.length := by
    rw [hsplit]
    simp only [List.length_append, List.length_cons, List.length_drop,
      List.length_take]
    omega
  have hrem : ∀ i, matchHead lineItemRE ((tf.drop 2).drop i) = none := by
    intro i
    refine matchHead_lineItem_digits fun c hc => htf2 c ?_
    exact List.mem_of_mem_drop (List.mem_of_mem_drop hc)
  have hfuel : LINE.length = (LINE.length - 1) + 1 := by
    have : 0 < LINE.length := by
      rw [hsplit]
      simp only [List.length_append, List.length_cons]
      omega
    omega
  unfold extract_line_items lineItemMatches
  rw [hfuel, findMAux_single hm hlen hrem]
  have hstop : (0 : Nat) + (LINE.length - (tf.drop 2).length) =
      LINE.length - (tf.drop 2).length := Nat.zero_add _
  have hdropstop : LINE.drop (LINE.length - (tf.drop 2).length) = tf.drop 2 := by
    conv_lhs => rw [hsplit]
    exact drop_consumed _ _
  have hfind : strFind LINE "Product".toList
      (0 + (LINE.length - (tf.drop 2).length)) = none := by
    unfold strFind
    rw [Nat.zero_add, hdropstop]
    exact findSubAux_none _ _ fun c hc =>
      dig_not_P (htf2 c (List.mem_of_mem_drop hc))
  have hslice : sliceL LINE
      (0 + (LINE.length - (tf.drop 2).length)) LINE.length = tf.drop 2 := by
    rw [Nat.zero_add]
    exact slice_consumed _ _ _ hsplit
  have hnows : ∀ c ∈ tf.drop 2, isPySpace c = false :=
    fun c hc => dig_not_ws (htf2 c (List.mem_of_mem_drop hc))
  have hstrip : pyStrip (tf.drop 2) = tf.drop 2 := by
    refine pyStrip_eq_self ?_ ?_
    · intro c hc
      exact hnows c (List.mem_of_mem_head? (Option.mem_def.mpr hc))
    · intro c hc
      exact hnows c (List.mem_of_getLast?_eq_some hc)
  simp only [itemsFrom, hfind, hslice, hstrip,
    collapseWs_no_ws hnows]
  simp [capStr, List.lookup]

/-! ## Locating the street-address match in the block -/

theorem head_drop_append_neg {p : Char → Bool} {a X : List Char} {j : Nat}
    (hj : j < a.length) (hall : ∀ c ∈ a, p c = false) :
    ∀ c, (a.drop j ++ X).head? = some c → p c = false := by
  intro c hc
  have hne : a.drop j ≠ [] := by
    intro hnil
    have := List.length_drop j a
    rw [hnil] at this
    simp at this
    omega
  cases hd : a.drop j with
  | nil => exact absurd hd hne
  | cons y ys =>
      rw [hd, List.cons_append, List.head?_cons] at hc
      rw [← Option.some.inj hc]
      have hmem : y ∈ a.drop j := by
        rw [hd]
        exact List.mem_cons_self y ys
      exact hall y (List.mem_of_mem_drop hmem)

theorem searchAux_cons_some {re : RE} {x : Char} {xs : List Char} {pos : Nat}
    {caps : Caps} {rem : List Char}
    (h : matchHead re (x :: xs) = some (caps, rem)) :
    searchAux re (x :: xs) pos =
      some ⟨pos, pos + ((x :: xs).length - rem.length), caps⟩ := by
  have heq : searchAux re (x :: xs) pos =
      match matchHead re (x :: xs) with
      | some (caps, rem) =>
          some ⟨pos, pos + ((x :: xs).length - rem.length), caps⟩
      | none => searchAux re xs (pos + 1) := rfl
  rw [heq, h]

/-- The leftmost match of the street-address pattern in a block consisting
of a digit-free prefix followed by the two runs: it starts right after the
prefix and captures the first run. -/
theorem reSearch_addrRE {c d1 w1 d2 w2 : List Char}
    (hc : ∀ x ∈ c, isDig x = false)
    (hd1 : ∀ x ∈ d1, isDig x = true) (hd1l : 3 ≤ d1.length)
    (hd1u : d1.length ≤ 6)
    (hw1 : w1 ≠ [])
    (hw1c : ∀ x ∈ w1, (isUp x || isLow x || x.toNat == 32 || x.toNat == 46) = true)
    (hw1h : ∀ x, w1.head? = some x → x.toNat ≠ 32)
    (hw1last : ∀ x, w1.getLast? = some x → x.toNat ≠ 32)
    (hd2 : ∀ x ∈ d2, isDig x = true) (hd2l : 3 ≤ d2.length)
    (hd2u : d2.length ≤ 6)
    (hw2 : w2 ≠ []) (hw2c : ∀ x ∈ w2, addr2Cls x = true)
    (hw2h : ∀ x, w2.head? = some x → x.toNat ≠ 32) :
    ∃ m, reSearch addrRE
        (c ++ (d1 ++ (' ' :: (w1 ++ (' ' :: (d2 ++ (' ' :: w2))))))) = some m ∧
      m.caps = [(1, d1 ++ ' ' :: w1)] := by
  obtain ⟨a, d1x, rfl⟩ : ∃ a d1x, d1 = a :: d1x := by
    cases d1 with
    | nil => simp at hd1l
    | cons a d1x => exact ⟨a, d1x, rfl⟩
  have hm := matchHead_addrRE hd1 hd1l hd1u hw1 hw1c hw1h hw1last hd2 hd2l
    hd2u hw2 hw2c hw2h
  rw [List.cons_append] at hm
  unfold reSearch
  rw [searchAux_prefix_fail c _ 0
    (fun i hi => matchHead_addrRE_nondigit (head_drop_append_neg hi hc)),
    List.cons_append, searchAux_cons_some hm]
  exact ⟨_, rfl, rfl⟩

/-! ## The claims -/

/-- C1: for every RawText in which the line-item header pattern matches N
times, `extract_line_items` returns exactly N items, in order of
appearance (item i carries the captures of match i), and every item
except the last has as description the text strictly between the end of
its own match and the start of the next match, trimmed and with internal
whitespace runs collapsed to single spaces. -/
theorem spec2proof_C1 (t : List Char) :
    (extract_line_items t).length = (lineItemMatches t).length ∧
    (∀ (i : Nat) (m : MatchRes), (lineItemMatches t)[i]? = some m →
      ∃ d, (extract_line_items t)[i]? =
        some ⟨capStr m 1, capStr m 2, capStr m 3, capStr m 4, capStr m 5, d⟩) ∧
    (∀ (i : Nat) (m1 m2 : MatchRes), (lineItemMatches t)[i]? = some m1 →
      (lineItemMatches t)[i + 1]? = some m2 →
      ((extract_line_items t)[i]?).map Item.description =
        some (collapseWs (pyStrip (sliceL t m1.stop m2.start)))) :=
  ⟨itemsFrom_length t _,
   fun i m h => itemsFrom_get t _ i m h,
   fun i m1 m2 h1 h2 => itemsFrom_desc t _ i m1 m2 h1 h2⟩

/-- Witness for C1 on a concrete two-item text. -/
theorem spec2proof_C1_witness :
    (extract_line_items
        "1 A 1 EAC 1.00EAC 2.00 desc one\n2 B 2 EAC 3.00EAC 4.00".toList).length =
      (lineItemMatches
        "1 A 1 EAC 1.00EAC 2.00 desc one\n2 B 2 EAC 3.00EAC 4.00".toList).length ∧
    ((extract_line_items
        "1 A 1 EAC 1.00EAC 2.00 desc one\n2 B 2 EAC 3.00EAC 4.00".toList)[0]?).map
        Item.description = some "desc one".toList := by
  have h := spec2proof_C1
    "1 A 1 EAC 1.00EAC 2.00 desc one\n2 B 2 EAC 3.00EAC 4.00".toList
  refine ⟨h.1, ?_⟩
  have hd := h.2.2 0
    ⟨0, 22, [(1, "1".toList), (2, "A".toList), (3, "1".toList),
      (4, "1.00".toList), (5, "2.00".toList)]⟩
    ⟨32, 54, [(1, "2".toList), (2, "B".toList), (3, "2".toList),
      (4, "3.00".toList), (5, "4.00".toList)]⟩
    (by decide) (by decide)
  exact hd.trans (by decide)

/-- C2 (amended): an item header line is recognized exactly by the
transliterated pattern; on a well-separated line whose total has at least
two fractional digits the match succeeds, the total capture taking
exactly the first two fractional digits (further digits are left to the
description); a line whose total has fewer than two fractional digits
does not match at the line start and emits no item for that line. -/
theorem spec2proof_C2 :
    (∀ ln id qty ui uf ti tf : List Char,
      ln ≠ [] → (∀ c ∈ ln, isDig c = true) →
      id ≠ [] → (∀ c ∈ id, idCls c = true) →
      qty ≠ [] → (∀ c ∈ qty, isDig c = true) →
      ui ≠ [] → (∀ c ∈ ui, digitComma c = true) →
      uf ≠ [] → (∀ c ∈ uf, isDig c = true) →
      ti ≠ [] → (∀ c ∈ ti, digitComma c = true) →
      (∀ c ∈ tf, isDig c = true) → 2 ≤ tf.length →
      extract_line_items
        (ln ++ (' ' :: (id ++ (' ' :: (qty ++ (' ' :: 'E' :: 'A' :: 'C' ::
          ' ' :: (ui ++ ('.' :: (uf ++ ('E' :: 'A' :: 'C' :: ' ' ::
            (ti ++ ('.' :: tf)))))))))))) =
        [⟨ln, id, qty, ui ++ '.' :: uf, ti ++ '.' :: tf.take 2, tf.drop 2⟩]) ∧
    (∀ ln id qty ui uf ti tf : List Char,
      (∀ c ∈ ln, isDig c = true) →
      id ≠ [] → (∀ c ∈ id, idCls c = true) →
      qty ≠ [] → (∀ c ∈ qty, isDig c = true) →
      ui ≠ [] → (∀ c ∈ ui, digitComma c = true) →
      (∀ c ∈ uf, isDig c = true) →
      ti ≠ [] → (∀ c ∈ ti, digitComma c = true) →
      tf.length < 2 →
      matchHead lineItemRE
        (ln ++ (' ' :: (id ++ (' ' :: (qty ++ (' ' :: 'E' :: 'A' :: 'C' ::
          ' ' :: (ui ++ ('.' :: (uf ++ ('E' :: 'A' :: 'C' :: ' ' ::
            (ti ++ ('.' :: tf)))))))))))) = none) :=
  ⟨fun ln id qty ui uf ti tf h1 h2 h3 h4 h5 h6 h7 h8 h9 h10 h11 h12 h13 h14 =>
      extract_line_items_single h1 h2 h3 h4 h5 h6 h7 h8 h9 h10 h11 h12 h13 h14,
   fun ln id qty ui uf ti tf h1 h2 h3 h4 h5 h6 h7 h8 h9 h10 h11 =>
      matchHead_lineItem_short h1 h2 h3 h4 h5 h6 h7 h8 h9 h10 h11⟩

/-- Witness for C2: a total with three fractional digits matches keeping
the first two, a total with one fractional digit does not match. -/
theorem spec2proof_C2_witness :
    extract_line_items
        ("1".toList ++ (' ' :: ("A".toList ++ (' ' :: ("2".toList ++
          (' ' :: 'E' :: 'A' :: 'C' :: ' ' :: ("1".toList ++ ('.' ::
            ("0".toList ++ ('E' :: 'A' :: 'C' :: ' ' :: ("5".toList ++
              ('.' :: "000".toList)))))))))))) =
      [⟨"1".toList, "A".toList, "2".toList, "1".toList ++ '.' :: "0".toList,
        "5".toList ++ '.' :: "000".toList.take 2, "000".toList.drop 2⟩] ∧
    matchHead lineItemRE
        ("1".toList ++ (' ' :: ("A".toList ++ (' ' :: ("2".toList ++
          (' ' :: 'E' :: 'A' :: 'C' :: ' ' :: ("1".toList ++ ('.' ::
            ("0".toList ++ ('E' :: 'A' :: 'C' :: ' ' :: ("5".toList ++
              ('.' :: "0".toList)))))))))))) = none :=
  ⟨spec2proof_C2.1 "1".toList "A".toList "2".toList "1".toList "0".toList
      "5".toList "000".toList (by decide) (by decide) (by decide) (by decide)
      (by decide) (by decide) (by decide) (by decide) (by decide) (by decide)
      (by decide) (by decide) (by decide) (by decide),
   spec2proof_C2.2 "1".toList "A".toList "2".toList "1".toList "0".toList
      "5".toList "0".toList (by decide) (by decide) (by decide) (by decide)
      (by decide) (by decide) (by decide) (by decide) (by decide) (by decide)
      (by decide)⟩

/-- Counterexample to C2 as stated: the line
`"1 A 2 EAC 1.0EAC 5.000"` has a total with three fractional digits, yet
the pattern matches it (capturing total `"5.00"`) and an item is
emitted. -/
theorem spec2proof_C2_counterexample :
    (extract_line_items "1 A 2 EAC 1.0EAC 5.000".toList).length = 1 ∧
    ((extract_line_items "1 A 2 EAC 1.0EAC 5.000".toList)[0]?).map Item.total =
      some "5.00".toList := by decide

/-- C3: the sample line from the spec yields exactly the documented
`LineItem`, and record assembly parses its unit price to 3600 and its
total to 97200. -/
theorem spec2proof_C3 :
    extract_line_items
        "1 HW.MAGFOOT-170 27 EAC 3,600.00000EAC 97,200.00".toList =
      [⟨"1".toList, "HW.MAGFOOT-170".toList, "27".toList,
        "3,600.00000".toList, "97,200.00".toList, []⟩] ∧
    (build_rows_for_pdf
        [some "1 HW.MAGFOOT-170 27 EAC 3,600.00000EAC 97,200.00".toList]
        "quote.pdf".toList none [] []).map
          (fun r => (r.unitPrice, r.totalSales)) =
      [(some (3600 : ℚ), some (97200 : ℚ))] := by
  have hu : pyFloat (stripCommas "3,600.00000".toList) = some (3600 : ℚ) := by
    have h0 : pyFloat (stripCommas "3,600.00000".toList) =
        some ((digitsVal "3600".toList : ℚ) +
          (digitsVal "00000".toList : ℚ) / (10 : ℚ) ^ ("00000".toList).length) :=
      rfl
    rw [h0, show digitsVal "3600".toList = 3600 from by decide,
      show digitsVal "00000".toList = 0 from by decide,
      show ("00000".toList).length = 5 from by decide]
    norm_num
  have ht : pyFloat (stripCommas "97,200.00".toList) = some (97200 : ℚ) := by
    have h0 : pyFloat (stripCommas "97,200.00".toList) =
        some ((digitsVal "97200".toList : ℚ) +
          (digitsVal "00".toList : ℚ) / (10 : ℚ) ^ ("00".toList).length) := rfl
    rw [h0, show digitsVal "97200".toList = 97200 from by decide,
      show digitsVal "00".toList = 0 from by decide,
      show ("00".toList).length = 2 from by decide]
    norm_num
  have hitems : extract_line_items (extract_full_text
      [some "1 HW.MAGFOOT-170 27 EAC 3,600.00000EAC 97,200.00".toList]) =
      [⟨"1".toList, "HW.MAGFOOT-170".toList, "27".toList,
        "3,600.00000".toList, "97,200.00".toList, []⟩] := by decide
  refine ⟨by decide, ?_⟩
  unfold build_rows_for_pdf
  dsimp only
  rw [hitems]
  simp only [List.map_cons, List.map_nil]
  rw [hu, ht]

/-- C4: the last item's description span ends at the first occurrence of
`"Product"` after the end of its own match when one exists, and at the
end of the text otherwise. -/
theorem spec2proof_C4 (t : List Char) (m : MatchRes)
    (h : (lineItemMatches t).getLast? = some m) :
    (extract_line_items t).getLast? =
      some ⟨capStr m 1, capStr m 2, capStr m 3, capStr m 4, capStr m 5,
        collapseWs (pyStrip (sliceL t m.stop
          (match strFind t "Product".toList m.stop with
           | some j => j
           | none => t.length)))⟩ :=
  itemsFrom_last t _ m h

/-- Witness for C4 on a concrete text with a `"Product"` summary line. -/
theorem spec2proof_C4_witness :
    (extract_line_items "1 A 1 EAC 1.00EAC 2.00 desc\nProduct 12.00".toList).getLast? =
      some ⟨"1".toList, "A".toList, "1".toList, "1.00".toList, "2.00".toList,
        "desc".toList⟩ := by
  have h := spec2proof_C4 "1 A 1 EAC 1.00EAC 2.00 desc\nProduct 12.00".toList
    ⟨0, 22, [(1, "1".toList), (2, "A".toList), (3, "1".toList),
      (4, "1.00".toList), (5, "2.00".toList)]⟩ (by decide)
  exact h.trans (by decide)

/-- C5: inside a scoped address block made of a digit-free prefix and two
consecutive well formed numeric-led runs, header extraction keeps only the
first run (trimmed) as the street address, discarding the duplicate
second run. -/
theorem spec2proof_C5 (t : List Char) (i j : Nat) (c d1 w1 d2 w2 : List Char)
    (hi : strFind t "Quoted For:".toList 0 = some i)
    (hj : strFind t "Quote Good Through".toList 0 = some j)
    (hblock : headerBlock t =
      c ++ (d1 ++ (' ' :: (w1 ++ (' ' :: (d2 ++ (' ' :: w2)))))))
    (hc : ∀ x ∈ c, isDig x = false)
    (hd1 : ∀ x ∈ d1, isDig x = true) (hd1l : 3 ≤ d1.length)
    (hd1u : d1.length ≤ 6)
    (hw1 : w1 ≠ [])
    (hw1c : ∀ x ∈ w1,
      (isUp x || isLow x || x.toNat == 32 || x.toNat == 46) = true)
    (hw1h : ∀ x, w1.head? = some x → x.toNat ≠ 32)
    (hw1last : ∀ x, w1.getLast? = some x → x.toNat ≠ 32)
    (hd2 : ∀ x ∈ d2, isDig x = true) (hd2l : 3 ≤ d2.length)
    (hd2u : d2.length ≤ 6)
    (hw2 : w2 ≠ []) (hw2c : ∀ x ∈ w2, addr2Cls x = true)
    (hw2h : ∀ x, w2.head? = some x → x.toNat ≠ 32) :
    (extract_header_info t).address = some (d1 ++ ' ' :: w1) := by
  obtain ⟨m, hsearch, hcaps⟩ := reSearch_addrRE hc hd1 hd1l hd1u hw1 hw1c
    hw1h hw1last hd2 hd2l hd2u hw2 hw2c hw2h
  rw [← hblock] at hsearch
  have haddr : (headerAddr t).address = some (pyStrip (capStr m 1)) := by
    unfold headerAddr
    rw [hi, hj]
    exact addrFields_address_some _ hsearch
  have hcap : capStr m 1 = d1 ++ ' ' :: w1 := by
    unfold capStr
    rw [hcaps]
    simp [List.lookup]
  have hd1ne : d1 ≠ [] := by
    intro h0
    rw [h0] at hd1l
    simp at hd1l
  obtain ⟨g, hg⟩ : ∃ g, w1.getLast? = some g := by
    cases hgl : w1.getLast? with
    | none => exact absurd (List.getLast?_eq_none_iff.mp hgl) hw1
    | some g => exact ⟨g, rfl⟩
  have hlast : (d1 ++ ' ' :: w1).getLast? = some g := by
    obtain ⟨b, bs, rfl⟩ : ∃ b bs, w1 = b :: bs := by
      cases w1 with
      | nil => exact absurd rfl hw1
      | cons b bs => exact ⟨b, bs, rfl⟩
    rw [List.getLast?_append, List.getLast?_cons_cons, hg]
    rfl
  have hstrip : pyStrip (d1 ++ ' ' :: w1) = d1 ++ ' ' :: w1 := by
    refine pyStrip_eq_self ?_ ?_
    · exact head_append_false hd1ne hd1 fun x h => dig_not_ws h
    · intro x hx
      rw [hlast] at hx
      rw [← Option.some.inj hx]
      exact w1cls_not_ws (hw1c g (List.mem_of_getLast?_eq_some hg))
        (hw1last g hg)
  rw [(ehi_keeps t).2.2.2.2.2.2.1, haddr, hcap, hstrip]

/-- Witness for C5 on a concrete header with a duplicated address. -/
theorem spec2proof_C5_witness :
    (extract_header_info
        "Quoted For: Acme Ship To: Acme 123 Main St. 456 Oak Quote Good Through 12/09/2025".toList).address =
      some "123 Main St.".toList := by
  have h := spec2proof_C5
    "Quoted For: Acme Ship To: Acme 123 Main St. 456 Oak Quote Good Through 12/09/2025".toList
    0 52 "Quoted For: Acme Ship To: Acme ".toList "123".toList
    "Main St.".toList "456".toList "Oak ".toList (by decide) (by decide)
    (by decide) (by decide) (by decide) (by decide) (by decide) (by decide)
    (by decide) (by decide) (by decide) (by decide) (by decide) (by decide)
    (by decide) (by decide) (by decide)
  exact h.trans (by decide)

/-- C6: a header field whose pattern search finds no match is left unset
(never a placeholder). -/
theorem spec2proof_C6 (t : List Char) :
    (reSearch quoteRE t = none →
      (extract_header_info t).quoteNumber = none ∧
      (extract_header_info t).quoteDate = none) ∧
    (reSearch custRE t = none →
      (extract_header_info t).customerNumber = none) ∧
    (reSearch contactRE t = none →
      (extract_header_info t).firstName = none ∧
      (extract_header_info t).lastName = none) ∧
    (reSearch companyRE (headerBlock t) = none →
      (extract_header_info t).company = none) ∧
    (reSearch addrRE (headerBlock t) = none →
      (extract_header_info t).address = none) ∧
    (reSearch cityRE (headerBlock t) = none →
      (extract_header_info t).city = none ∧
      (extract_header_info t).state = none ∧
      (extract_header_info t).zipCode = none) ∧
    (containsSub (headerBlock t) "United States of America".toList = false →
      (extract_header_info t).country = none) ∧
    (reSearch validRE t = none →
      (extract_header_info t).quoteValidDate = none) := by
  obtain ⟨e1, e2, e3, e4, e5, e6, e7, e8, e9, e10, e11⟩ := ehi_keeps t
  obtain ⟨a1, a2, a3, a4, a5, a6⟩ := headerAddr_keeps t
  obtain ⟨c1, c2, c3, c4, c5, c6, c7, c8, c9, c10⟩ := headerContact_keeps t
  obtain ⟨u1, u2, u3, u4, u5, u6, u7, u8, u9, u10, u11⟩ := headerCust_keeps t
  obtain ⟨b1, b2, b3, b4, b5, b6, b7, b8, b9, b10⟩ := headerQuote_base t
  refine ⟨?_, ?_, ?_, ?_, ?_, ?_, ?_, ?_⟩
  · intro hs
    have hq : (headerQuote t).quoteNumber = none ∧
        (headerQuote t).quoteDate = none := by
      unfold headerQuote
      rw [hs]
      exact ⟨rfl, rfl⟩
    exact ⟨by rw [e1, a1, c1, u1, hq.1], by rw [e2, a2, c2, u2, hq.2]⟩
  · intro hs
    have hc2 : (headerCust t).customerNumber =
        (headerQuote t).customerNumber := by
      unfold headerCust
      rw [hs]
    rw [e3, a3, c3, hc2, b1]
  · intro hs
    have hcp : contactParts t = [] := by
      unfold contactParts
      rw [hs]
    have hf : (headerContact t).firstName = none := by
      unfold headerContact
      rw [hcp]
      rfl
    have hl : (headerContact t).lastName = none := by
      unfold headerContact
      rw [hcp]
      rfl
    exact ⟨by rw [e4, a4, hf], by rw [e5, a5, hl]⟩
  · intro hs
    have ha : (headerAddr t).company = (headerContact t).company := by
      unfold headerAddr
      split
      · exact addrFields_company_none _ hs
      · rfl
    rw [e6, ha, c4, u5, b4]
  · intro hs
    have ha : (headerAddr t).address = (headerContact t).address := by
      unfold headerAddr
      split
      · exact addrFields_address_none _ hs
      · rfl
    rw [e7, ha, c5, u6, b5]
  · intro hs
    have ha : (headerAddr t).city = (headerContact t).city ∧
        (headerAddr t).state = (headerContact t).state ∧
        (headerAddr t).zipCode = (headerContact t).zipCode := by
      unfold headerAddr
      split
      · exact addrFields_city_none _ hs
      · exact ⟨rfl, rfl, rfl⟩
    exact ⟨by rw [e8, ha.1, c6, u7, b6], by rw [e9, ha.2.1, c7, u8, b7],
      by rw [e10, ha.2.2, c8, u9, b8]⟩
  · intro hs
    have ha : (headerAddr t).country = (headerContact t).country := by
      unfold headerAddr
      split
      · exact addrFields_country_none _ hs
      · rfl
    rw [e11, ha, c9, u10, b9]
  · intro hs
    have he : (extract_header_info t).quoteValidDate =
        (headerAddr t).quoteValidDate := by
      unfold extract_header_info
      rw [hs]
    rw [he, a6, c10, u11, b10]

/-- Witness for C6 on the empty text, where every search fails. -/
theorem spec2proof_C6_witness :
    (extract_header_info []).quoteNumber = none ∧
    (extract_header_info []).quoteDate = none ∧
    (extract_header_info []).customerNumber = none ∧
    (extract_header_info []).firstName = none ∧
    (extract_header_info []).lastName = none ∧
    (extract_header_info []).company = none ∧
    (extract_header_info []).address = none ∧
    (extract_header_info []).city = none ∧
    (extract_header_info []).state = none ∧
    (extract_header_info []).zipCode = none ∧
    (extract_header_info []).country = none ∧
    (extract_header_info []).quoteValidDate = none := by
  have h := spec2proof_C6 []
  refine ⟨(h.1 (by decide)).1, (h.1 (by decide)).2, h.2.1 (by decide),
    (h.2.2.1 (by decide)).1, (h.2.2.1 (by decide)).2,
    h.2.2.2.1 (by decide), h.2.2.2.2.1 (by decide),
    (h.2.2.2.2.2.1 (by decide)).1, (h.2.2.2.2.2.1 (by decide)).2.1,
    (h.2.2.2.2.2.1 (by decide)).2.2, h.2.2.2.2.2.2.1 (by decide),
    h.2.2.2.2.2.2.2 (by decide)⟩

/-- C9: when both markers occur but the first `"Quote Good Through"`
precedes the first `"Quoted For:"`, the scoped block is empty and all six
block-derived fields stay unset. -/
theorem spec2proof_C9 (t : List Char) (i j : Nat)
    (hi : strFind t "Quoted For:".toList 0 = some i)
    (hj : strFind t "Quote Good Through".toList 0 = some j) (hlt : j < i) :
    (extract_header_info t).company = none ∧
    (extract_header_info t).address = none ∧
    (extract_header_info t).city = none ∧
    (extract_header_info t).state = none ∧
    (extract_header_info t).zipCode = none ∧
    (extract_header_info t).country = none := by
  have hblock : headerBlock t = [] := by
    unfold headerBlock
    rw [hi, hj]
    dsimp only
    unfold sliceL
    rw [show j - i = 0 from by omega]
    rfl
  have haddr : headerAddr t = headerContact t := by
    unfold headerAddr
    rw [hi, hj]
    show addrFields (headerContact t) (headerBlock t) = headerContact t
    rw [hblock, addrFields_nil]
  obtain ⟨e1, e2, e3, e4, e5, e6, e7, e8, e9, e10, e11⟩ := ehi_keeps t
  obtain ⟨c1, c2, c3, c4, c5, c6, c7, c8, c9, c10⟩ := headerContact_keeps t
  obtain ⟨u1, u2, u3, u4, u5, u6, u7, u8, u9, u10, u11⟩ := headerCust_keeps t
  obtain ⟨b1, b2, b3, b4, b5, b6, b7, b8, b9, b10⟩ := headerQuote_base t
  exact ⟨by rw [e6, haddr, c4, u5, b4], by rw [e7, haddr, c5, u6, b5],
    by rw [e8, haddr, c6, u7, b6], by rw [e9, haddr, c7, u8, b7],
    by rw [e10, haddr, c8, u9, b8], by rw [e11, haddr, c9, u10, b9]⟩

/-- Witness for C9 on a text where the markers appear in reversed order
with plausible address material after them. -/
theorem spec2proof_C9_witness :
    (extract_header_info
        "Quote Good Through X Quoted For: Y Ship To: Z 123 Main St. 456 Oak".toList).company =
      none ∧
    (extract_header_info
        "Quote Good Through X Quoted For: Y Ship To: Z 123 Main St. 456 Oak".toList).address =
      none := by
  have h := spec2proof_C9
    "Quote Good Through X Quoted For: Y Ship To: Z 123 Main St. 456 Oak".toList
    21 0 (by decide) (by decide) (by decide)
  exact ⟨h.1, h.2.1⟩

/-- C7 (amended): `extract_full_text` produces each page's text (empty
for a page yielding none) followed by a newline, in page order — a
newline after every page, including the last — and a document with zero
pages yields the empty RawText. -/
theorem spec2proof_C7 (pages : List (Option (List Char))) :
    extract_full_text pages =
      (pages.map fun p => p.getD []).foldr
        (fun tx acc => tx ++ '\n' :: acc) [] ∧
    (pages = [] → extract_full_text pages = []) := by
  have hgen : ∀ (ps : List (Option (List Char))) (acc : List Char),
      ps.foldl (fun acc p => acc ++ p.getD [] ++ ['\n']) acc =
        acc ++ (ps.map fun p => p.getD []).foldr
          (fun tx acc => tx ++ '\n' :: acc) [] := by
    intro ps
    induction ps with
    | nil => intro acc; simp
    | cons p ps ih =>
        intro acc
        simp only [List.foldl_cons, List.map_cons, List.foldr_cons, ih]
        simp
    
  constructor
  · unfold extract_full_text
    rw [hgen]
    simp
  · intro h
    subst h
    rfl

/-- Witness for C7: a document with zero pages yields empty RawText. -/
theorem spec2proof_C7_witness : extract_full_text [] = ([] : List Char) :=
  (spec2proof_C7 []).2 rfl

/-- Counterexample to C7 as stated: a one-page document gets a trailing
newline, so the result is not the pages' texts joined with a newline
separator. -/
theorem spec2proof_C7_counterexample :
    extract_full_text [some ['A']] = ['A', '\n'] ∧
    specNewlineSeparatedJoin [['A']] = ['A'] ∧
    extract_full_text [some ['A']] ≠ specNewlineSeparatedJoin [['A']] := by
  decide

/-- C8: a document whose processing raises contributes no rows and one
warning naming the file, and every other document's rows are still
produced, in upload order. -/
theorem processBatch_cons_ok (n : List Char) (rows : List Row)
    (rest : List (List Char × Except (List Char) (List Row))) :
    processBatch ((n, Except.ok rows) :: rest) =
      (rows ++ (processBatch rest).1, (processBatch rest).2) := rfl

theorem processBatch_cons_error (n msg : List Char)
    (rest : List (List Char × Except (List Char) (List Row))) :
    processBatch ((n, Except.error msg) :: rest) =
      ((processBatch rest).1, warningFor n msg :: (processBatch rest).2) := rfl

theorem spec2proof_C8
    (pre post : List (List Char × Except (List Char) (List Row)))
    (name e : List Char) :
    processBatch (pre ++ (name, Except.error e) :: post) =
      ((processBatch pre).1 ++ (processBatch post).1,
       (processBatch pre).2 ++ warningFor name e :: (processBatch post).2) := by
  induction pre with
  | nil => simp [processBatch_cons_error, processBatch]
  | cons d pre ih =>
      obtain ⟨n0, r0⟩ := d
      cases r0 with
      | ok rows =>
          rw [List.cons_append, processBatch_cons_ok, processBatch_cons_ok, ih]
          simp [List.append_assoc]
      | error e0 =>
          rw [List.cons_append, processBatch_cons_error,
            processBatch_cons_error, ih]
          simp

/-- C10: `build_rows_for_pdf` returns one row per extracted line item —
also when the header is entirely empty, in which case the header-derived
columns are null — and every row's PDF column is the source filename. -/
theorem spec2proof_C10 (pages : List (Option (List Char)))
    (filename : List Char) (rm : Option (List Char))
    (rEmail brand : List Char) :
    (build_rows_for_pdf pages filename rm rEmail brand).length =
      (extract_line_items (extract_full_text pages)).length ∧
    ∀ r ∈ build_rows_for_pdf pages filename rm rEmail brand,
      r.pdf = filename ∧
      (extract_header_info (extract_full_text pages) = {} →
        r.quoteNumber = none ∧ r.quoteDate = none ∧ r.company = none ∧
        r.firstName = none ∧ r.lastName = none ∧ r.address = none ∧
        r.city = none ∧ r.state = none ∧ r.zipCode = none ∧
        r.country = none ∧ r.quoteValidDate = none ∧
        r.customerNumber = none) := by
  constructor
  · unfold build_rows_for_pdf
    dsimp only
    rw [List.length_map]
  · intro r hr
    unfold build_rows_for_pdf at hr
    dsimp only at hr
    rw [List.mem_map] at hr
    obtain ⟨it, hit, rfl⟩ := hr
    refine ⟨rfl, fun hh => ?_⟩
    rw [hh]
    exact ⟨rfl, rfl, rfl, rfl, rfl, rfl, rfl, rfl, rfl, rfl, rfl, rfl⟩

/-- Witness for C10 on a one-item document with an entirely empty
header. -/
theorem spec2proof_C10_witness :
    (build_rows_for_pdf [some "1 A 2 EAC 1.0EAC 5.00".toList]
        "f.pdf".toList none [] []).length =
      (extract_line_items (extract_full_text
        [some "1 A 2 EAC 1.0EAC 5.00".toList])).length ∧
    ((build_rows_for_pdf [some "1 A 2 EAC 1.0EAC 5.00".toList]
        "f.pdf".toList none [] []).all fun r =>
          decide (r.pdf = "f.pdf".toList ∧ r.quoteNumber = none ∧
            r.company = none)) = true := by
  have h := spec2proof_C10 [some "1 A 2 EAC 1.0EAC 5.00".toList]
    "f.pdf".toList none [] []
  refine ⟨h.1, List.all_eq_true.mpr fun r hr => ?_⟩
  have h2 := h.2 r hr
  have h3 := h2.2 (by decide)
  rw [decide_eq_true_eq]
  exact ⟨h2.1, h3.1, h3.2.2.1⟩
end Cadre
